import Mathlib

/-!
Shallow embedding of the EDA-Dashboard repository (src/app.py, src/main.py,
src/eda_modules/{summary,correlation,forecast,patterns,load_data,preprocess}.py).

Modelling conventions:
* A pandas DataFrame is a `Dataset`: an ordered list of named, dtyped columns.
* Machine floats are idealised as `ℚ` (exact arithmetic); `NaN` cells are `Cell.na`.
* Dates (`pandas.Timestamp` at day resolution) are day numbers `ℤ`
  (days since 1970-01-01, proleptic Gregorian).
* A python function that can raise is embedded with `Except Unit` (or an
  explicit outcome constructor); returning `None` is `Option.none`.
* The Gemini LLM call (`gemini_explain`) is total in the source (every failure
  is caught and turned into a message string), so it is modelled as an
  arbitrary total function `g : String → String` threaded through the
  orchestrator; prompt wording is abstracted (out of scope per the spec).
-/

/-- A single cell of a DataFrame column: missing (`NaN`/`NaT`), a numeric
value, a text value, or a datetime value (day number). -/
inductive Cell
  | na
  | num (q : ℚ)
  | text (s : String)
  | date (d : ℤ)
  deriving DecidableEq, Repr

/-- The pandas dtype of a column, as far as the analyses distinguish them:
numeric, object/text, or datetime. -/
inductive Dtype
  | num
  | text
  | date
  deriving DecidableEq, Repr

/-- A named column with its dtype and cells, in row order. -/
structure Column where
  name : String
  dtype : Dtype
  cells : List Cell
  deriving DecidableEq, Repr

/-- A DataFrame: an ordered collection of columns. -/
structure Dataset where
  cols : List Column
  deriving DecidableEq, Repr

/-- Numeric value of a cell, `none` for missing/non-numeric cells
(pandas reductions skip `NaN`). -/
def Cell.toNum? : Cell → Option ℚ
  | .num q => some q
  | _ => none

/-- The non-missing numeric values of a column, in original row order
(pandas `skipna` semantics). -/
def numsOf (c : Column) : List ℚ :=
  c.cells.filterMap Cell.toNum?

/-- `df.select_dtypes(include="number")`: the numeric columns, in order. -/
def numericCols (ds : Dataset) : List Column :=
  ds.cols.filter (fun c => c.dtype = Dtype.num)

/-- Names of the numeric columns. -/
def numericNames (ds : Dataset) : List String :=
  (numericCols ds).map Column.name

/-- `name in df.columns`. -/
def hasCol (ds : Dataset) (name : String) : Prop :=
  ∃ c ∈ ds.cols, c.name = name

instance (ds : Dataset) (name : String) : Decidable (hasCol ds name) :=
  decidable_of_iff (∃ c ∈ ds.cols, c.name = name) Iff.rfl

/-- `df[name]`: the first column with the given name (a default empty column
when absent; all uses are guarded by `hasCol`). -/
def getCol (ds : Dataset) (name : String) : Column :=
  (ds.cols.find? (fun c => c.name = name)).getD ⟨name, Dtype.text, []⟩

/-- Number of rows (`df.shape[0]`); columns share a common length by the
Dataset invariant, so the first column is representative. -/
def nRows (ds : Dataset) : ℕ :=
  match ds.cols with
  | [] => 0
  | c :: _ => c.cells.length

/-- `df.empty`: true when the frame has no rows or no columns. -/
def dsEmpty (ds : Dataset) : Prop :=
  ds.cols = [] ∨ nRows ds = 0

instance (ds : Dataset) : Decidable (dsEmpty ds) :=
  decidable_of_iff (ds.cols = [] ∨ nRows ds = 0) Iff.rfl

/-! ## Quantiles and the outlier detector (src/eda_modules/patterns.py) -/

/-- The non-missing numeric values of a column, sorted ascending (the order
statistics that `Series.quantile` interpolates between). -/
def sortedNums (c : Column) : List ℚ :=
  (numsOf c).insertionSort (· ≤ ·)

/-- `Series.quantile(q)` with the default linear interpolation, applied to an
ascending list of the non-missing values: position `h = q*(n-1)`, result
`x_i + (h - i) * (x_{i+1} - x_i)` with `i = ⌊h⌋`; `none` on an empty list
(pandas returns `NaN`). -/
def quantileQ (l : List ℚ) (q : ℚ) : Option ℚ :=
  match l with
  | [] => none
  | _ =>
    let n := l.length
    let h : ℚ := q * ((n : ℚ) - 1)
    let i : ℕ := h.floor.toNat
    let lo := l.getD i 0
    let hi := l.getD (i + 1) lo
    some (lo + (h - (i : ℚ)) * (hi - lo))

/-- Q1 of a column: 25th percentile of its non-missing values. -/
def colQ1 (c : Column) : Option ℚ := quantileQ (sortedNums c) (1/4)

/-- Q3 of a column: 75th percentile of its non-missing values. -/
def colQ3 (c : Column) : Option ℚ := quantileQ (sortedNums c) (3/4)

/-- The outliers of one numeric column per `detect_outliers`:
values strictly below `Q1 - 1.5*IQR` or strictly above `Q3 + 1.5*IQR`,
in row order.  When the column has no non-missing values the quantiles are
`NaN` and every comparison with them is false, so the list is empty. -/
def colOutlierList (c : Column) : List ℚ :=
  match colQ1 c, colQ3 c with
  | some q1, some q3 =>
    let iqr := q3 - q1
    let lb := q1 - 3/2 * iqr
    let ub := q3 + 3/2 * iqr
    (numsOf c).filter (fun x => x < lb ∨ ub < x)
  | _, _ => []

/-- `detect_outliers(df)`: for every numeric column, its name mapped to its
out-of-bound values (src/eda_modules/patterns.py). -/
def detect_outliers (ds : Dataset) : List (String × List ℚ) :=
  (numericCols ds).map (fun c => (c.name, colOutlierList c))

/-! ## Rule-based insights (src/app.py, generate_rule_based_insights) -/

/-- `Series.mean()` over the non-missing values. -/
def colMean (c : Column) : Option ℚ :=
  match numsOf c with
  | [] => none
  | l => some (l.sum / l.length)

/-- `Series.max()` over the non-missing values. -/
def colMax (c : Column) : Option ℚ :=
  match numsOf c with
  | [] => none
  | x :: xs => some (xs.foldl max x)

/-- `Series.min()` over the non-missing values. -/
def colMin (c : Column) : Option ℚ :=
  match numsOf c with
  | [] => none
  | x :: xs => some (xs.foldl min x)

/-- The high-max insight text for a column. -/
def highMsg (name : String) : String :=
  "🔼 **" ++ name ++ "** has unusually high max values compared to its mean."

/-- The low-min insight text for a column. -/
def lowMsg (name : String) : String :=
  "🔽 **" ++ name ++ "** has unusually low min values compared to its mean."

/-- The fallback message when no rule triggers. -/
def fallbackMsg : String := "No significant patterns detected."

/-- The insights contributed by one numeric column: high-max first, then
low-min, matching the order of the two `if` statements in the source.  A
column with no non-missing values has `NaN` statistics, every comparison
with which is false, so it contributes nothing. -/
def colInsights (c : Column) : List String :=
  match colMean c, colMax c, colMin c with
  | some m, some mx, some mn =>
    (if mx > m * (3/2) then [highMsg c.name] else []) ++
      (if mn < m * (1/2) then [lowMsg c.name] else [])
  | _, _, _ => []

/-- `generate_rule_based_insights(df)` from src/app.py: per-column rule
insights over the numeric columns, or the single fallback message
(`return insights or [...]`). -/
def generate_rule_based_insights (ds : Dataset) : List String :=
  let l := (numericCols ds).flatMap colInsights
  if l = [] then [fallbackMsg] else l

/-! ## Dates (`pd.to_datetime`) -/

/-- Day number of a proleptic Gregorian date (days since 1970-01-01),
the standard civil-from-date computation used by calendar libraries. -/
def dayNumber (y m d : ℤ) : ℤ :=
  let y2 : ℤ := if m ≤ 2 then y - 1 else y
  let era : ℤ := (if 0 ≤ y2 then y2 else y2 - 399) / 400
  let yoe : ℤ := y2 - era * 400
  let mp : ℤ := if 2 < m then m - 3 else m + 9
  let doy : ℤ := (153 * mp + 2) / 5 + d - 1
  let doe : ℤ := yoe * 365 + yoe / 4 - yoe / 100 + doy
  era * 146097 + doe - 719468

/-- Parse a decimal digit. -/
def digitVal (c : Char) : Option ℕ :=
  if c.isDigit then some (c.toNat - 48) else none

/-- Parse a list of decimal digits as a number. -/
def digitsVal : List Char → Option ℕ
  | [] => none
  | l => l.foldlM (fun acc c => (digitVal c).map (fun v => acc * 10 + v)) 0

/-- Split a character list on the dash separator. -/
def splitDashAux (acc : List Char) : List Char → List (List Char)
  | [] => [acc.reverse]
  | c :: rest =>
    if c = Char.ofNat 45 then acc.reverse :: splitDashAux [] rest
    else splitDashAux (c :: acc) rest

/-- Parse an ISO `YYYY-MM-DD` date string to its day number.  This models the
fragment of `pd.to_datetime` string parsing the dashboard relies on; other
formats are modelled as parse failures. -/
def parseIso (s : String) : Option ℤ :=
  match splitDashAux [] s.data with
  | [ys, ms, dss] => do
    let y ← digitsVal ys
    let m ← digitsVal ms
    let d ← digitsVal dss
    if 1 ≤ m ∧ m ≤ 12 ∧ 1 ≤ d ∧ d ≤ 31 then
      pure (dayNumber (y : ℤ) (m : ℤ) (d : ℤ))
    else none
  | _ => none

/-- `pd.to_datetime` on a single cell: datetimes pass through, date strings
are parsed, anything else is a conversion failure.  (`NaT` propagation for
missing dates is not modelled; no claim below involves a missing date.) -/
def cellToDate : Cell → Option ℤ
  | .date d => some d
  | .text s => parseIso s
  | _ => none

/-- `pd.to_datetime(df["date"])` on a whole column: all cells must convert,
otherwise the call raises. -/
def toDatetimeCol (cells : List Cell) : Except Unit (List ℤ) :=
  match cells.mapM cellToDate with
  | some l => .ok l
  | none => .error ()

/-- `df[name] = newCells` for a datetime assignment: overwrites the cells and
dtype of every column with that name, in place on the caller's frame. -/
def setCol (ds : Dataset) (name : String) (newCells : List Cell) : Dataset :=
  ⟨ds.cols.map (fun c =>
    if c.name = name then ⟨c.name, Dtype.date, newCells⟩ else c)⟩

/-! ## Ordinary least squares on the row index (sklearn LinearRegression) -/

/-- Mean of a list of rationals (`0` on the empty list, which no caller
reaches). -/
def listMean (l : List ℚ) : ℚ := l.sum / l.length

/-- Mean of the time indices `0, …, n-1`. -/
def tIdxMean (n : ℕ) : ℚ := (∑ i ∈ Finset.range n, (i : ℚ)) / n

/-- Centered sum of squares of the time indices. -/
def sxxT (n : ℕ) : ℚ := ∑ i ∈ Finset.range n, ((i : ℚ) - tIdxMean n) ^ 2

/-- Centered cross sum of time index against the target values. -/
def sxyT (ys : List ℚ) : ℚ :=
  ∑ i ∈ Finset.range ys.length,
    ((i : ℚ) - tIdxMean ys.length) * (ys.getD i 0 - listMean ys)

/-- Fitted slope of `LinearRegression().fit(t, y)` with `t = 0..n-1`:
`sxy / sxx`, and the minimum-norm solution `0` when the design is degenerate
(`n ≤ 1`). -/
def olsSlope (ys : List ℚ) : ℚ :=
  if sxxT ys.length = 0 then 0 else sxyT ys / sxxT ys.length

/-- Fitted intercept: `ȳ - slope * t̄`. -/
def olsIntercept (ys : List ℚ) : ℚ :=
  listMean ys - olsSlope ys * tIdxMean ys.length

/-! ## The forecaster (src/eda_modules/forecast.py, generate_forecast) -/

/-- Outcome of `generate_forecast`: `unavailable` models `return None`,
`error` models an uncaught python exception (e.g. sklearn refusing to fit an
empty design), `ok pairs` models a figure whose forecast series is the given
(date, value) pairs. -/
inductive FcOutcome
  | unavailable
  | error
  | ok (pairs : List (ℤ × ℚ))
  deriving DecidableEq, Repr

/-- The (date, target) rows that survive `df.dropna(subset=[target])`, in row
order: rows whose target cell is a number. -/
def fcRows (dcol : List ℤ) (tcells : List Cell) : List (ℤ × ℚ) :=
  (dcol.zip tcells).filterMap (fun p => (p.2.toNum?).map (fun q => (p.1, q)))

/-- Row comparison for `df.sort_values("date")`. -/
def dateLe (p q : ℤ × ℚ) : Prop := p.1 ≤ q.1

instance : DecidableRel dateLe := fun p q => by unfold dateLe; infer_instance

instance : IsTotal (ℤ × ℚ) dateLe := ⟨fun p q => Int.le_total p.1 q.1⟩

instance : IsTrans (ℤ × ℚ) dateLe := ⟨fun _ _ _ h h2 => le_trans h h2⟩

/-- The target values of the kept rows, sorted by date ascending (the `y`
the regression is fitted on, in time-index order). -/
def fcYs (rows : List (ℤ × ℚ)) : List ℚ :=
  (rows.insertionSort dateLe).map Prod.snd

/-- `df["date"].max()` over the kept rows. -/
def fcLast (rows : List (ℤ × ℚ)) : ℤ :=
  match rows with
  | [] => 0
  | r0 :: _ => (rows.map Prod.fst).foldl max r0.1

/-- The forecast series: for each step `j`, the day `last + 1 + j`
(`pd.date_range(max, periods=steps+1, freq="D")[1:]`) paired with the OLS
prediction at time index `n + j`. -/
def fcPairs (rows : List (ℤ × ℚ)) (steps : ℕ) : List (ℤ × ℚ) :=
  (List.range steps).map (fun j : ℕ =>
    (fcLast rows + 1 + (j : ℤ),
      olsIntercept (fcYs rows) + olsSlope (fcYs rows) *
        (((fcYs rows).length : ℚ) + (j : ℚ))))

/-- `generate_forecast(df, target_column, steps)` from
src/eda_modules/forecast.py, returning its outcome together with the state of
the caller's DataFrame after the call (the function converts the `date`
column in place before copying).  Steps: guard on both columns existing;
convert `date` with `pd.to_datetime` (in place); drop rows missing the
target; sort by date; fit OLS of the target on the row index; predict the
next `steps` indices; pair them with the `steps` consecutive days after the
last observed date (`pd.date_range(max, periods=steps+1)[1:]`). -/
def generate_forecast (ds : Dataset) (target : String) (steps : ℕ) :
    FcOutcome × Dataset :=
  if ¬ (hasCol ds "date" ∧ hasCol ds target) then (.unavailable, ds)
  else
    match toDatetimeCol (getCol ds "date").cells with
    | .error _ => (.error, ds)
    | .ok dts =>
      let ds2 := setCol ds "date" (dts.map Cell.date)
      let rows := fcRows dts (getCol ds2 target).cells
      match rows with
      | [] => (.error, ds2)
      | r0 :: rest => (.ok (fcPairs (r0 :: rest) steps), ds2)

/-! ## Correlation (src/eda_modules/correlation.py; `df.corr()`) -/

/-- The pairwise-complete observations of two cell columns: rows where both
cells are numbers (`df.corr` excludes `NaN` pairwise). -/
def pairComplete (xs ys : List Cell) : List (ℚ × ℚ) :=
  (xs.zip ys).filterMap (fun p =>
    match p.1.toNum?, p.2.toNum? with
    | some a, some b => some (a, b)
    | _, _ => none)

/-- Centered sum of squares of the first components of a pair list. -/
def sxxP (ps : List (ℚ × ℚ)) : ℚ :=
  ∑ i ∈ Finset.range ps.length,
    ((ps.getD i (0, 0)).1 - listMean (ps.map Prod.fst)) ^ 2

/-- Centered sum of squares of the second components of a pair list. -/
def syyP (ps : List (ℚ × ℚ)) : ℚ :=
  ∑ i ∈ Finset.range ps.length,
    ((ps.getD i (0, 0)).2 - listMean (ps.map Prod.snd)) ^ 2

/-- Centered cross sum of a pair list. -/
def sxyP (ps : List (ℚ × ℚ)) : ℚ :=
  ∑ i ∈ Finset.range ps.length,
    ((ps.getD i (0, 0)).1 - listMean (ps.map Prod.fst)) *
      ((ps.getD i (0, 0)).2 - listMean (ps.map Prod.snd))

/-- One Pearson correlation entry of `df.corr()`:
`sxy / √(sxx * syy)` over the pairwise-complete observations (the `n-1`
normalisations cancel), and `none` — pandas `NaN` — when either column is
degenerate (zero variance, which covers fewer than two observations). -/
noncomputable def corrEntry (xs ys : List Cell) : Option ℝ :=
  let ps := pairComplete xs ys
  if sxxP ps = 0 ∨ syyP ps = 0 then none
  else some ((sxyP ps : ℝ) / Real.sqrt ((sxxP ps : ℝ) * (syyP ps : ℝ)))

/-- The correlation matrix of `df.select_dtypes(include="number").corr()`,
indexed by positions in the numeric-column list. -/
noncomputable def corrMatrix (ds : Dataset) (i j : ℕ) : Option ℝ :=
  corrEntry ((numericCols ds).getD i ⟨"", Dtype.num, []⟩).cells
    ((numericCols ds).getD j ⟨"", Dtype.num, []⟩).cells

/-- The heatmap figure returned by `generate_correlation` in
src/eda_modules/correlation.py, modelled by the data it renders: the numeric
column labels and the correlation matrix. -/
noncomputable def generate_correlation (ds : Dataset) :
    List String × (ℕ → ℕ → Option ℝ) :=
  (numericNames ds, corrMatrix ds)

/-! ## Summary (src/eda_modules/summary.py, generate_summary) -/

/-- Rendering of a dtype, as pandas names them. -/
def dtypeName : Dtype → String
  | .num => "float64"
  | .text => "object"
  | .date => "datetime64"

/-- Count of non-missing cells of a column (`Series.notnull().sum()`). -/
def nonNullCount (c : Column) : ℕ :=
  (c.cells.filter (fun x => x ≠ Cell.na)).length

/-- Count of missing cells of a column (`Series.isnull().sum()`). -/
def nullCount (c : Column) : ℕ :=
  (c.cells.filter (fun x => x = Cell.na)).length

/-- One line of the per-column info section. -/
def colInfoLine (c : Column) : String :=
  "  - " ++ c.name ++ ": " ++ dtypeName c.dtype ++ " (non-null: " ++
    toString (nonNullCount c) ++ ")"

/-- The numeric-statistics block of `df.describe()`, modelled by the exact
statistics it tabulates (count, mean, min, quartiles, max; the float
formatting of `to_string` and the standard deviation, which is irrational,
are abstracted into this rendering). -/
def describeLine (c : Column) : String :=
  c.name ++ " count " ++ toString (numsOf c).length ++
    " mean " ++ toString ((colMean c).getD 0) ++
    " min " ++ toString ((colMin c).getD 0) ++
    " q1 " ++ toString ((colQ1 c).getD 0) ++
    " q3 " ++ toString ((colQ3 c).getD 0) ++
    " max " ++ toString ((colMax c).getD 0)

/-- Distinct values of a text column (`Series.nunique()` counts them). -/
def distinctVals (c : Column) : List Cell :=
  c.cells.filter (fun x => x ≠ Cell.na) |>.dedup

/-- `generate_summary(df)` from src/eda_modules/summary.py: shape, column
info, missing counts, numeric describe and categorical cardinalities joined
into one text report.  `df.describe()` raises on a DataFrame without
columns, which the `Except` error models (top-3 value rendering is
abstracted to the distinct-value count it is derived from). -/
def generate_summary (ds : Dataset) : Except Unit String :=
  if ds.cols = [] then .error ()
  else
    .ok (String.intercalate "\n"
      (["🧾 Dataset shape: " ++ toString (nRows ds) ++ " rows × " ++
          toString ds.cols.length ++ " columns\n", "📌 Column info:"] ++
        ds.cols.map colInfoLine ++
        ((ds.cols.filter (fun c => 0 < nullCount c)).map (fun c =>
          "  - " ++ c.name ++ ": " ++ toString (nullCount c) ++ " missing")) ++
        ["📊 Numerical summary:\n"] ++ (numericCols ds).map describeLine ++
        ((ds.cols.filter (fun c => c.dtype = Dtype.text)).map (fun c =>
          "  - " ++ c.name ++ ": " ++ toString (distinctVals c).length ++
            " unique values"))))

/-! ## Ingestion cleanup (src/eda_modules/load_data.py `load_and_preprocess`;
src/eda_modules/preprocess.py is a byte-identical duplicate of the same
pipeline) -/

/-- Python `str.lower` on one character (ASCII letters; the dashboard's
column names). -/
def lowerChar (c : Char) : Char :=
  if 65 ≤ c.toNat ∧ c.toNat ≤ 90 then Char.ofNat (c.toNat + 32) else c

/-- Python whitespace as stripped by `str.strip()` (space, tab, newline,
carriage return, vertical tab, form feed), compared by code point. -/
def isPyWs (c : Char) : Bool :=
  c.toNat = 32 ∨ c.toNat = 9 ∨ c.toNat = 10 ∨ c.toNat = 13 ∨
    c.toNat = 11 ∨ c.toNat = 12

/-- `str.strip()` on the character list. -/
def stripChars (l : List Char) : List Char :=
  ((l.dropWhile isPyWs).reverse.dropWhile isPyWs).reverse

/-- `name.strip().lower()`: the column-name normalisation of ingestion. -/
def normName (s : String) : String :=
  ⟨(stripChars s.data).map lowerChar⟩

/-- `df.columns = df.columns.str.strip().str.lower()`. -/
def cleanNames (ds : Dataset) : Dataset :=
  ⟨ds.cols.map (fun c => ⟨normName c.name, c.dtype, c.cells⟩)⟩

/-- The rows of a rectangular Dataset, row-major (missing cells of a ragged
frame are padded with `na`; actual frames are rectangular). -/
def rowsOf (ds : Dataset) : List (List Cell) :=
  (List.range (nRows ds)).map (fun i => ds.cols.map (fun c => c.cells.getD i Cell.na))

/-- Keep the first occurrence of every row (`df.drop_duplicates`): generic
first-occurrence deduplication with the already-seen accumulator. -/
def dedupFirstAux {α : Type} [DecidableEq α] (seen : List α) : List α → List α
  | [] => []
  | x :: xs =>
    if x ∈ seen then dedupFirstAux seen xs
    else x :: dedupFirstAux (x :: seen) xs

/-- First-occurrence deduplication. -/
def dedupFirst {α : Type} [DecidableEq α] (l : List α) : List α :=
  dedupFirstAux [] l

/-- Rebuild columns (names and dtypes) from a row-major list, column `j`
taking the `j`-th entry of every row. -/
def rebuildCols : List Column → ℕ → List (List Cell) → List Column
  | [], _, _ => []
  | c :: cs, j, rs =>
    ⟨c.name, c.dtype, rs.map (fun r => r.getD j Cell.na)⟩ :: rebuildCols cs (j + 1) rs

/-- `df.drop_duplicates(inplace=True)`: drop every row equal to an earlier
row. -/
def dropDuplicatesDs (ds : Dataset) : Dataset :=
  ⟨rebuildCols ds.cols 0 (dedupFirst (rowsOf ds))⟩

/-- Column-wise forward fill with the last non-missing cell carried along
(`df.ffill`). -/
def ffillGo (carry : Option Cell) : List Cell → List Cell
  | [] => []
  | c :: rest =>
    if c = Cell.na then
      match carry with
      | some v => v :: ffillGo (some v) rest
      | none => Cell.na :: ffillGo none rest
    else c :: ffillGo (some c) rest

/-- `df.ffill(inplace=True)` on one column. -/
def ffillCol (l : List Cell) : List Cell := ffillGo none l

/-- `df.ffill(inplace=True)` on the whole frame. -/
def ffillDs (ds : Dataset) : Dataset :=
  ⟨ds.cols.map (fun c => ⟨c.name, c.dtype, ffillCol c.cells⟩)⟩

/-- The cleaning transform of `load_and_preprocess` (after `pd.read_csv`,
whose output is the `raw` argument here): normalise column names, drop
duplicate rows, forward-fill missing values. -/
def load_and_preprocess (raw : Dataset) : Dataset :=
  ffillDs (dropDuplicatesDs (cleanNames raw))

/-! ## The LangGraph orchestrator (src/app.py): state, nodes, linear graph -/

/-- The figure type of correlation results: labels plus matrix. -/
abbrev CorrFig := List String × (ℕ → ℕ → Option ℝ)

/-- The `EDAState` TypedDict of src/app.py.  `none` in a field means the key
has not been assigned yet (the graph is invoked with only `df` set); the
forecast plot is itself optional because `forecast_node` stores python
`None` when forecasting is unavailable. -/
structure EDAState where
  df : Dataset
  summary : Option String := none
  ai_summary : Option String := none
  correlation_plot : Option CorrFig := none
  ai_correlation : Option String := none
  forecast_plot : Option (Option (List (ℤ × ℚ))) := none
  ai_forecast : Option String := none
  outliers : Option (List (String × List ℚ)) := none
  ai_outliers : Option String := none

/-- Prompt sent by `summary_node` (wording abstracted; prompts are out of
scope per the spec and the explainer is universally quantified). -/
def summaryPrompt (s : String) : String :=
  "Here is the dataset summary:\n" ++ s ++ "\nExplain in plain English."

/-- Prompt sent by `correlation_node` (the matrix `to_string` rendering is
abstracted to the column labels). -/
def corrPrompt (ds : Dataset) : String :=
  "The correlation matrix is:\n" ++ String.intercalate " " (numericNames ds) ++
    "\nExplain the main relationships."

/-- Prompt sent by `forecast_node`. -/
def fcPrompt (col : String) : String :=
  "Forecast for " ++ col ++ ". Explain the trend."

/-- Rendering of the outlier report used in `outlier_node`'s prompt. -/
def reportText (r : List (String × List ℚ)) : String :=
  String.intercalate ", " (r.map (fun p =>
    p.1 ++ ": [" ++ String.intercalate ", " (p.2.map toString) ++ "]"))

/-- Prompt sent by `outlier_node`. -/
def outPrompt (r : List (String × List ℚ)) : String :=
  "Detected outliers: " ++ reportText r ++ ". Explain what they might mean."

/-- The message `forecast_node` stores when no column is selected. -/
def noNumericMsg : String := "No numeric columns available for forecasting."

/-- `summary_node` of src/app.py: run `generate_summary`, ask the explainer,
store both.  An exception from `generate_summary` propagates (LangGraph has
no per-node isolation). -/
def summary_node (g : String → String) (s : EDAState) : Except Unit EDAState :=
  match generate_summary s.df with
  | .error e => .error e
  | .ok txt =>
    .ok { s with summary := some txt, ai_summary := some (g (summaryPrompt txt)) }

/-- `correlation_node` of src/app.py: always succeeds. -/
noncomputable def correlation_node (g : String → String) (s : EDAState) :
    Except Unit EDAState :=
  .ok { s with
    correlation_plot := some (generate_correlation s.df),
    ai_correlation := some (g (corrPrompt s.df)) }

/-- `forecast_node` of src/app.py:
`col = df.select_dtypes("number").columns[0] if not df.empty else None`.
On a non-empty frame with no numeric column, `columns[0]` raises
`IndexError` (modelled `.error`).  A falsy column name (`if col:`) takes the
no-column branch.  Otherwise `generate_forecast(df, col)` runs with the
default 365 steps — its in-place `date` conversion lands back in the state,
and an exception inside it propagates. -/
def forecast_node (g : String → String) (s : EDAState) : Except Unit EDAState :=
  if dsEmpty s.df then
    .ok { s with forecast_plot := some none, ai_forecast := some noNumericMsg }
  else
    match (numericCols s.df).head? with
    | none => .error ()
    | some c =>
      if c.name = "" then
        .ok { s with forecast_plot := some none, ai_forecast := some noNumericMsg }
      else
        match generate_forecast s.df c.name 365 with
        | (.error, _) => .error ()
        | (.unavailable, ds2) =>
          .ok { s with df := ds2, forecast_plot := some none,
                       ai_forecast := some (g (fcPrompt c.name)) }
        | (.ok pairs, ds2) =>
          .ok { s with df := ds2, forecast_plot := some (some pairs),
                       ai_forecast := some (g (fcPrompt c.name)) }

/-- `outlier_node` of src/app.py: always succeeds. -/
def outlier_node (g : String → String) (s : EDAState) : Except Unit EDAState :=
  let r := detect_outliers s.df
  .ok { s with outliers := some r, ai_outliers := some (g (outPrompt r)) }

/-- The compiled graph `START → Summary → Correlation → Forecast → Outliers →
END` invoked on `{"df": df}`: a fixed linear chain in which a node's
exception aborts the remaining nodes. -/
noncomputable def edaInvoke (g : String → String) (ds : Dataset) :
    Except Unit EDAState :=
  (summary_node g { df := ds }).bind (fun s1 =>
    (correlation_node g s1).bind (fun s2 =>
      (forecast_node g s2).bind (fun s3 => outlier_node g s3)))

/-! ## The two entry points (src/app.py Streamlit UI, src/main.py CLI) -/

/-- The analysis selected in the Streamlit radio widget. -/
inductive StChoice
  | summarySel
  | correlationSel
  | forecastSel (col : String)
  | outliersSel
  | insightsRule
  | insightsAI
  | fullRun

/-- What a Streamlit branch renders, by kind. -/
inductive StResult
  | textR (s : String)
  | corrR (f : CorrFig)
  | fcR (o : FcOutcome)
  | outR (r : List (String × List ℚ))
  | insR (l : List String)
  | aiR (s : String)
  | fullR (st : EDAState)

/-- Prompt of the AI-powered insights branch (statistics rendering
abstracted). -/
def statsPrompt (ds : Dataset) : String :=
  "Dataset stats:\n" ++ String.intercalate " " (ds.cols.map Column.name) ++
    "\nGive concise insights about patterns, trends, and anomalies."

/-- The Streamlit dispatch of src/app.py (lines after the upload): the parsed
DataFrame `df` is handed to every analysis exactly as `pd.read_csv` returned
it — no cleanup runs in this entry point.  A python exception in a branch is
`.error` (the surrounding `try` shows an error box). -/
noncomputable def streamlitRun (g : String → String) (df : Dataset) :
    StChoice → Except Unit StResult
  | .summarySel => (generate_summary df).map StResult.textR
  | .correlationSel => .ok (.corrR (generate_correlation df))
  | .forecastSel col =>
    match generate_forecast df col 365 with
    | (.error, _) => .error ()
    | (o, _) => .ok (.fcR o)
  | .outliersSel => .ok (.outR (detect_outliers df))
  | .insightsRule => .ok (.insR (generate_rule_based_insights df))
  | .insightsAI => .ok (.aiR (g (statsPrompt df)))
  | .fullRun => (edaInvoke g df).map StResult.fullR

/-- The tool selected in the CLI menu of src/main.py. -/
inductive CliChoice
  | summarySel
  | correlationSel
  | forecastSel
  | outliersSel

/-- The CLI dispatch of src/main.py: `df = load_and_preprocess(file_path)`
and then one tool on the cleaned frame.  The forecast branch calls
`forecast_sales`, a function defined nowhere in the repository (its import
alone makes src/main.py fail), modelled as an error. -/
noncomputable def cliRun (raw : Dataset) : CliChoice → Except Unit StResult
  | .summarySel => (generate_summary (load_and_preprocess raw)).map StResult.textR
  | .correlationSel => .ok (.corrR (generate_correlation (load_and_preprocess raw)))
  | .forecastSel => .error ()
  | .outliersSel => .ok (.outR (detect_outliers (load_and_preprocess raw)))

/-! ## Concrete datasets used in counterexamples and witnesses -/

/-- A non-empty frame with a single text column (no numeric columns). -/
def dsTextOnly : Dataset := ⟨[⟨"name", Dtype.text, [Cell.text "a"]⟩]⟩

/-- A frame with one numeric column and no `date` column. -/
def dsNumOnly : Dataset := ⟨[⟨"x", Dtype.num, [Cell.num 1, Cell.num 2]⟩]⟩

/-- A frame with a `date` column and a target whose values are all missing. -/
def dsAllNA : Dataset :=
  ⟨[⟨"date", Dtype.date, [Cell.date 0]⟩, ⟨"sales", Dtype.num, [Cell.na]⟩]⟩

/-- A frame whose `date` column holds date strings (dtype object). -/
def dsDateText : Dataset :=
  ⟨[⟨"date", Dtype.text, [Cell.text "1970-01-02"]⟩,
    ⟨"sales", Dtype.num, [Cell.num 5]⟩]⟩

/-- A frame on which forward fill creates a duplicate row. -/
def dsDupFill : Dataset := ⟨[⟨"a", Dtype.num, [Cell.num 1, Cell.na]⟩]⟩

/-- An already-clean frame (normalised name, no duplicates, no missing). -/
def dsClean : Dataset := ⟨[⟨"a", Dtype.num, [Cell.num 1, Cell.num 2]⟩]⟩

/-! ## C3 — forecast stage on a frame with no numeric columns -/

/-- C3: the claim says the Forecast stage yields an unavailable result
without raising whenever the frame has no numeric columns, including a
non-empty frame with only non-numeric columns.  The code guards only
`df.empty`, so on `dsTextOnly` (one text column, one row) it evaluates
`select_dtypes("number").columns[0]` on an empty column index and raises
`IndexError`, aborting the stage. -/
theorem c3_forecast_node_raises :
    forecast_node (fun _ => "") { df := dsTextOnly } = Except.error () := rfl

/-! ## C1 — the orchestrated run and per-stage isolation -/

/-- C1 counterexample: on `dsTextOnly` the Forecast stage raises, the
pipeline aborts, and no combined report with four (result, insight) pairs is
produced — later stages (Outliers) never run, contradicting the claimed
per-stage failure isolation. -/
theorem c1_counterexample :
    edaInvoke (fun _ => "") dsTextOnly = Except.error () := rfl

/-- C1 (amended): the orchestrated run is a fixed linear chain without
per-stage exception isolation.  Whenever no stage raises — the frame has at
least one column, and the Forecast stage either takes its no-column branch
or its `generate_forecast` call does not raise — the run returns all four
(result, insight) pairs; in particular an unavailable Forecast outcome does
not prevent the Outliers stage.  (A raising stage aborts the remaining
stages, as the counterexample shows.) -/
theorem c1_amended (g : String → String) (ds : Dataset) (h1 : ds.cols ≠ [])
    (h2 : ¬ dsEmpty ds → ∃ c, (numericCols ds).head? = some c ∧
      (c.name = "" ∨ (generate_forecast ds c.name 365).1 ≠ FcOutcome.error)) :
    ∃ st, edaInvoke g ds = Except.ok st ∧
      st.summary.isSome ∧ st.ai_summary.isSome ∧
      st.correlation_plot.isSome ∧ st.ai_correlation.isSome ∧
      st.forecast_plot.isSome ∧ st.ai_forecast.isSome ∧
      st.outliers.isSome ∧ st.ai_outliers.isSome := by
  obtain ⟨txt, hs⟩ : ∃ t, generate_summary ds = Except.ok t := by
    unfold generate_summary
    rw [if_neg h1]
    exact ⟨_, rfl⟩
  by_cases he : dsEmpty ds
  · simp only [edaInvoke, summary_node, hs, Except.bind, correlation_node,
      forecast_node, outlier_node, if_pos he]
    exact ⟨_, rfl, by simp, by simp, by simp, by simp, by simp, by simp,
      by simp, by simp⟩
  · obtain ⟨c, hc, hbr⟩ := h2 he
    by_cases hnm : c.name = ""
    · simp only [edaInvoke, summary_node, hs, Except.bind, correlation_node,
        forecast_node, outlier_node, if_neg he, hc, hnm, if_pos]
      exact ⟨_, rfl, by simp, by simp, by simp, by simp, by simp, by simp,
        by simp, by simp⟩
    · have hfc : (generate_forecast ds c.name 365).1 ≠ FcOutcome.error := by
        rcases hbr with h | h
        · exact absurd h hnm
        · exact h
      rcases hres : generate_forecast ds c.name 365 with ⟨o, ds2⟩
      rcases o with _ | _ | pairs
      · simp only [edaInvoke, summary_node, hs, Except.bind, correlation_node,
          forecast_node, outlier_node, if_neg he, hc, hres, if_neg hnm]
        exact ⟨_, rfl, by simp, by simp, by simp, by simp, by simp, by simp,
          by simp, by simp⟩
      · rw [hres] at hfc
        exact absurd rfl hfc
      · simp only [edaInvoke, summary_node, hs, Except.bind, correlation_node,
          forecast_node, outlier_node, if_neg he, hc, hres, if_neg hnm]
        exact ⟨_, rfl, by simp, by simp, by simp, by simp, by simp, by simp,
          by simp, by simp⟩

/-- C1 witness: a frame with one numeric column and no `date` column makes
the Forecast stage return unavailable, and the run still produces all four
(result, insight) pairs. -/
theorem c1_amended_witness :
    dsNumOnly.cols ≠ [] ∧
      ∃ st, edaInvoke (fun _ => "") dsNumOnly = Except.ok st ∧
        st.summary.isSome ∧ st.ai_summary.isSome ∧
        st.correlation_plot.isSome ∧ st.ai_correlation.isSome ∧
        st.forecast_plot.isSome ∧ st.ai_forecast.isSome ∧
        st.outliers.isSome ∧ st.ai_outliers.isSome :=
  ⟨by decide,
    c1_amended (fun _ => "") dsNumOnly (by decide)
      (fun _ => ⟨⟨"x", Dtype.num, [Cell.num 1, Cell.num 2]⟩, by decide,
        Or.inr (by decide)⟩)⟩

/-! ## C2 — the forecaster's unavailable signal -/

/-- Replacing the cells of the columns named `n2` does not change the column
retrieved under a different name. -/
theorem getCol_setCol_ne (ds : Dataset) (n1 n2 : String) (cl : List Cell)
    (h : n1 ≠ n2) : getCol (setCol ds n2 cl) n1 = getCol ds n1 := by
  unfold getCol setCol
  congr 1
  induction ds.cols with
  | nil => rfl
  | cons c cs ih =>
    rw [List.map_cons]
    by_cases hc : c.name = n1
    · have h2 : ¬ c.name = n2 := fun hh => h (hc.symm.trans hh)
      rw [if_neg h2, List.find?_cons_of_pos _ (by simp [hc]),
        List.find?_cons_of_pos _ (by simp [hc])]
    · by_cases h2 : c.name = n2
      · rw [if_pos h2, List.find?_cons_of_neg _ (by simp [hc]),
          List.find?_cons_of_neg _ (by simp [hc])]
        exact ih
      · rw [if_neg h2, List.find?_cons_of_neg _ (by simp [hc]),
          List.find?_cons_of_neg _ (by simp [hc])]
        exact ih

/-- A target column with no numeric cell yields no rows after
`dropna(subset=[target])`. -/
theorem fcRows_eq_nil (dcol : List ℤ) (tcells : List Cell)
    (h : ∀ x ∈ tcells, x.toNum? = none) : fcRows dcol tcells = [] := by
  unfold fcRows
  rw [List.filterMap_eq_nil_iff]
  intro p hp
  rw [h p.2 (List.of_mem_zip hp).2]
  rfl

/-- C2 counterexample: with the `date` column present and the target all
missing, `generate_forecast` raises (sklearn refuses the empty fit) instead
of signalling unavailable as the claim states. -/
theorem c2_counterexample :
    (generate_forecast dsAllNA "sales" 365).1 = FcOutcome.error ∧
      FcOutcome.error ≠ FcOutcome.unavailable := by
  exact ⟨rfl, by decide⟩

/-- C2 (amended): `generate_forecast` returns the unavailable signal (python
`None`) exactly when the `date` column or the target column is absent; when
both are present but the target has no non-missing values, the call raises
instead of signalling unavailable.  Both outcomes remain distinguishable
from a successful empty forecast. -/
theorem c2_amended (ds : Dataset) (target : String) (steps : ℕ) :
    (¬ (hasCol ds "date" ∧ hasCol ds target) →
      (generate_forecast ds target steps).1 = FcOutcome.unavailable) ∧
    (∀ dts, hasCol ds "date" → hasCol ds target → target ≠ "date" →
      toDatetimeCol (getCol ds "date").cells = Except.ok dts →
      numsOf (getCol ds target) = [] →
      (generate_forecast ds target steps).1 = FcOutcome.error) ∧
    (∀ l, FcOutcome.unavailable ≠ FcOutcome.ok l ∧
      FcOutcome.error ≠ FcOutcome.ok l) := by
  refine ⟨?_, ?_, ?_⟩
  · intro h
    unfold generate_forecast
    rw [if_pos h]
  · intro dts hd ht hne hdts hnums
    unfold generate_forecast
    rw [if_neg (not_not_intro ⟨hd, ht⟩), hdts]
    have hrows : fcRows dts
        (getCol (setCol ds "date" (dts.map Cell.date)) target).cells = [] := by
      rw [getCol_setCol_ne ds target "date" _ hne]
      refine fcRows_eq_nil _ _ ?_
      intro x hx
      have := List.filterMap_eq_nil_iff.mp hnums
      exact this x hx
    simp only [hrows]
  · intro l
    exact ⟨by simp, by simp⟩

/-- C2 witness: `dsAllNA` instantiates the amended raising case. -/
theorem c2_amended_witness :
    hasCol dsAllNA "date" ∧ hasCol dsAllNA "sales" ∧
      numsOf (getCol dsAllNA "sales") = [] ∧
      (generate_forecast dsAllNA "sales" 365).1 = FcOutcome.error :=
  ⟨by decide, by decide, by decide,
    (c2_amended dsAllNA "sales" 365).2.1 [0] (by decide) (by decide)
      (by decide) (by rfl) (by decide)⟩

/-! ## C4 — which components mutate the Dataset -/

/-- C4 counterexample: `generate_forecast` writes
`df["date"] = pd.to_datetime(df["date"])` on the caller's frame, so after a
call on a frame whose `date` column holds date strings the cell values have
changed — the Forecaster does not leave the Dataset unchanged. -/
theorem c4_counterexample :
    (generate_forecast dsDateText "sales" 1).2 ≠ dsDateText := by decide

/-- C4 (amended): the Summary, Correlation and Outlier stages leave the
frame in the state untouched, and the Forecaster's only frame effect is the
in-place datetime conversion of the `date` column: with a guard failure the
frame is unchanged, and otherwise the result frame is exactly the original
with the `date` column overwritten by its converted cells. -/
theorem c4_amended :
    (∀ g s st, summary_node g s = Except.ok st → st.df = s.df) ∧
    (∀ g s st, correlation_node g s = Except.ok st → st.df = s.df) ∧
    (∀ g s st, outlier_node g s = Except.ok st → st.df = s.df) ∧
    (∀ ds target steps, ¬ (hasCol ds "date" ∧ hasCol ds target) →
      (generate_forecast ds target steps).2 = ds) ∧
    (∀ ds target steps dts,
      toDatetimeCol (getCol ds "date").cells = Except.ok dts →
      (generate_forecast ds target steps).2 = ds ∨
        (generate_forecast ds target steps).2 =
          setCol ds "date" (dts.map Cell.date)) := by
  refine ⟨?_, ?_, ?_, ?_, ?_⟩
  · intro g s st hst
    unfold summary_node at hst
    rcases hg : generate_summary s.df with e | txt
    · rw [hg] at hst
      cases hst
    · rw [hg] at hst
      cases hst
      rfl
  · intro g s st hst
    unfold correlation_node at hst
    cases hst
    rfl
  · intro g s st hst
    unfold outlier_node at hst
    cases hst
    rfl
  · intro ds target steps hg
    unfold generate_forecast
    rw [if_pos hg]
  · intro ds target steps dts hdts
    unfold generate_forecast
    by_cases hg : ¬ (hasCol ds "date" ∧ hasCol ds target)
    · rw [if_pos hg]
      exact Or.inl rfl
    · rw [if_neg hg, hdts]
      rcases hrows : fcRows dts
          (getCol (setCol ds "date" (dts.map Cell.date)) target).cells with
        _ | ⟨r, rs⟩
      · simp only [hrows]
        exact Or.inr trivial
      · simp only [hrows]
        exact Or.inr trivial

/-- C4 witness: a call whose guard fails leaves the frame unchanged. -/
theorem c4_amended_witness :
    ¬ (hasCol dsNumOnly "date" ∧ hasCol dsNumOnly "sales") ∧
      (generate_forecast dsNumOnly "sales" 1).2 = dsNumOnly :=
  ⟨by decide, c4_amended.2.2.2.1 dsNumOnly "sales" 1 (by decide)⟩

/-! ## C9 — idempotence of the ingestion cleanup -/

/-- C9 counterexample: on a column `[1, NaN]` the cleanup deduplicates first
and forward-fills second, producing `[1, 1]` — a duplicate row that a second
run removes, so the transform is not idempotent. -/
theorem c9_counterexample :
    load_and_preprocess (load_and_preprocess dsDupFill) ≠
      load_and_preprocess dsDupFill := by decide

/-- Lowercasing is idempotent on characters. -/
theorem lowerChar_lowerChar (c : Char) : lowerChar (lowerChar c) = lowerChar c := by
  by_cases h : 65 ≤ c.toNat ∧ c.toNat ≤ 90
  · obtain ⟨h1, h2⟩ := h
    have hv : lowerChar c = Char.ofNat (c.toNat + 32) := by
      rw [lowerChar, if_pos ⟨h1, h2⟩]
    rw [hv]
    set n := c.toNat with hn
    interval_cases n <;> decide
  · have hv : lowerChar c = c := by rw [lowerChar, if_neg h]
    rw [hv, hv]

/-- Lowercasing does not move a character in or out of the whitespace set. -/
theorem isPyWs_lowerChar (c : Char) : isPyWs (lowerChar c) = isPyWs c := by
  by_cases h : 65 ≤ c.toNat ∧ c.toNat ≤ 90
  · obtain ⟨h1, h2⟩ := h
    have hv : lowerChar c = Char.ofNat (c.toNat + 32) := by
      rw [lowerChar, if_pos ⟨h1, h2⟩]
    rw [hv]
    unfold isPyWs
    set n := c.toNat with hn
    interval_cases n <;> decide
  · have hv : lowerChar c = c := by rw [lowerChar, if_neg h]
    rw [hv]

/-- Stripping commutes with lowercasing. -/
theorem stripChars_map_lower (l : List Char) :
    stripChars (l.map lowerChar) = (stripChars l).map lowerChar := by
  have hpf : (isPyWs ∘ lowerChar) = isPyWs := funext isPyWs_lowerChar
  unfold stripChars
  rw [List.dropWhile_map, hpf, ← List.map_reverse, List.dropWhile_map, hpf,
    ← List.map_reverse]

/-- A list surviving `dropWhile` never starts with a matching element. -/
theorem head?_dropWhile_false {α : Type} (p : α → Bool) (l : List α) :
    ∀ a ∈ (l.dropWhile p).head?, p a = false := by
  intro a ha
  cases h : l.dropWhile p with
  | nil => rw [h] at ha; cases ha
  | cons b bs =>
    rw [h] at ha
    have hb : b = a := by simpa using ha
    subst hb
    have := List.dropWhile_get_zero_not p l (by rw [h]; simp)
    simpa [h] using this

/-- `dropWhile` is idempotent. -/
theorem dropWhile_dropWhile {α : Type} (p : α → Bool) (l : List α) :
    (l.dropWhile p).dropWhile p = l.dropWhile p := by
  cases h : l.dropWhile p with
  | nil => rfl
  | cons a as =>
    have ha : p a = false := head?_dropWhile_false p l a (by rw [h]; rfl)
    exact List.dropWhile_cons_of_neg (by simp [ha])

/-- `dropWhile` fixes a list whose head does not match. -/
theorem dropWhile_eq_self_of_head {α : Type} (p : α → Bool) (l : List α)
    (h : ∀ a ∈ l.head?, p a = false) : l.dropWhile p = l := by
  cases l with
  | nil => rfl
  | cons a as =>
    exact List.dropWhile_cons_of_neg (by simp [h a rfl])

/-- A nonempty `dropWhile` result keeps the last element of its input. -/
theorem getLast?_dropWhile {α : Type} (p : α → Bool) (l : List α)
    (h : l.dropWhile p ≠ []) : (l.dropWhile p).getLast? = l.getLast? := by
  obtain ⟨t, ht⟩ := @List.dropWhile_suffix α l p
  conv_rhs => rw [← ht]
  rw [List.getLast?_append_of_ne_nil _ h]

/-- A stripped list never starts with whitespace. -/
theorem stripChars_head (l : List Char) :
    ∀ a ∈ (stripChars l).head?, isPyWs a = false := by
  intro a ha
  unfold stripChars at ha
  rw [List.head?_reverse] at ha
  by_cases hne : (l.dropWhile isPyWs).reverse.dropWhile isPyWs = []
  · rw [hne] at ha; cases ha
  · rw [getLast?_dropWhile _ _ hne, List.getLast?_reverse] at ha
    exact head?_dropWhile_false isPyWs l a ha

/-- A stripped list never ends with whitespace. -/
theorem stripChars_last (l : List Char) :
    ∀ a ∈ (stripChars l).getLast?, isPyWs a = false := by
  intro a ha
  unfold stripChars at ha
  rw [List.getLast?_reverse] at ha
  exact head?_dropWhile_false isPyWs _ a ha

/-- Stripping fixes a list with clean ends. -/
theorem stripChars_eq_self (l : List Char)
    (hh : ∀ a ∈ l.head?, isPyWs a = false)
    (hl : ∀ a ∈ l.getLast?, isPyWs a = false) : stripChars l = l := by
  unfold stripChars
  rw [dropWhile_eq_self_of_head _ l hh,
    dropWhile_eq_self_of_head _ l.reverse
      (by rw [List.head?_reverse]; exact hl),
    List.reverse_reverse]

/-- Stripping is idempotent. -/
theorem stripChars_stripChars (l : List Char) :
    stripChars (stripChars l) = stripChars l :=
  stripChars_eq_self _ (stripChars_head l) (stripChars_last l)

/-- The column-name normalisation `strip().lower()` is idempotent. -/
theorem normName_normName (s : String) : normName (normName s) = normName s := by
  unfold normName
  congr 1
  show List.map lowerChar (stripChars (List.map lowerChar (stripChars s.data))) =
    List.map lowerChar (stripChars s.data)
  rw [stripChars_map_lower, List.map_map,
    show lowerChar ∘ lowerChar = lowerChar from funext lowerChar_lowerChar,
    stripChars_stripChars]

/-- First-occurrence deduplication fixes a duplicate-free list disjoint from
the accumulator. -/
theorem dedupFirstAux_eq_self {α : Type} [DecidableEq α] (l : List α) :
    ∀ seen, l.Nodup → (∀ x ∈ l, x ∉ seen) → dedupFirstAux seen l = l := by
  induction l with
  | nil => intro seen _ _; rfl
  | cons a as ih =>
    intro seen hnd hdisj
    unfold dedupFirstAux
    rw [if_neg (hdisj a (by simp))]
    congr 1
    refine ih (a :: seen) (List.Nodup.of_cons hnd) ?_
    intro x hx
    rw [List.mem_cons]
    push_neg
    exact ⟨fun he => (List.nodup_cons.mp hnd).1 (he ▸ hx),
      hdisj x (List.mem_cons_of_mem _ hx)⟩

/-- `drop_duplicates` fixes a frame whose rows are already distinct. -/
theorem dedupFirst_eq_self {α : Type} [DecidableEq α] (l : List α)
    (hnd : l.Nodup) : dedupFirst l = l :=
  dedupFirstAux_eq_self l [] hnd (by simp)

/-- Reading every position of a list back off produces the list. -/
theorem map_getD_range {α : Type} (l : List α) (d : α) :
    (List.range l.length).map (fun i => l.getD i d) = l := by
  induction l with
  | nil => rfl
  | cons a as ih =>
    rw [List.length_cons, List.range_succ_eq_map, List.map_cons, List.map_map]
    exact congrArg (List.cons a) ih

/-- `getD` over a mapped list, within bounds. -/
theorem getD_map_lt {α β : Type} (f : α → β) (l : List α) (d : β) (d2 : α) :
    ∀ j, j < l.length → (l.map f).getD j d = f (l.getD j d2) := by
  induction l with
  | nil => intro j hj; cases hj
  | cons a as ih =>
    intro j hj
    cases j with
    | zero => rfl
    | succ k => exact ih k (Nat.lt_of_succ_lt_succ hj)

/-- Rebuilding columns from the frame's own row list restores the columns,
provided the frame is rectangular with `n` rows. -/
theorem rebuildCols_self (full : List Column) (n : ℕ)
    (hrect : ∀ c ∈ full, c.cells.length = n) :
    ∀ (j : ℕ) (cs : List Column), cs = full.drop j →
      rebuildCols cs j ((List.range n).map
        (fun i => full.map (fun c => c.cells.getD i Cell.na))) = cs := by
  intro j cs
  induction cs generalizing j with
  | nil => intro _; rfl
  | cons c cs2 ih =>
    intro hdrop
    have hjlt : j < full.length := by
      by_contra hge
      rw [List.drop_eq_nil_of_le (Nat.le_of_not_lt hge)] at hdrop
      cases hdrop
    rw [List.drop_eq_getElem_cons hjlt] at hdrop
    injection hdrop with h1 h2
    have hget : full.getD j ⟨"", Dtype.text, []⟩ = c := by
      rw [List.getD_eq_getElem?_getD, List.getElem?_eq_getElem hjlt]
      exact h1.symm
    unfold rebuildCols
    congr 1
    · have hrows : (((List.range n).map
          (fun i => full.map (fun c2 => c2.cells.getD i Cell.na))).map
            (fun r => r.getD j Cell.na)) =
          (List.range n).map (fun i => c.cells.getD i Cell.na) := by
        rw [List.map_map]
        refine List.map_congr_left ?_
        intro i _
        show (full.map (fun c2 => c2.cells.getD i Cell.na)).getD j Cell.na =
          c.cells.getD i Cell.na
        rw [getD_map_lt _ full Cell.na ⟨"", Dtype.text, []⟩ j hjlt, hget]
      rw [hrows]
      have hmem : c ∈ full := by
        rw [h1]
        exact List.getElem_mem hjlt
      rw [← hrect c hmem, map_getD_range]
    · exact ih (j + 1) h2

/-- Forward fill preserves length. -/
theorem length_ffillGo (l : List Cell) :
    ∀ carry, (ffillGo carry l).length = l.length := by
  induction l with
  | nil => intro _; rfl
  | cons c cs ih =>
    intro carry
    unfold ffillGo
    by_cases hna : c = Cell.na
    · rw [if_pos hna]
      cases carry with
      | some v => simp [ih]
      | none => simp [ih]
    · rw [if_neg hna]
      simp [ih]

/-- Forward fill on a missing cell with a carried value. -/
theorem ffillGo_cons_na_some (v : Cell) (rest : List Cell) :
    ffillGo (some v) (Cell.na :: rest) = v :: ffillGo (some v) rest := rfl

/-- Forward fill on a missing cell with nothing carried. -/
theorem ffillGo_cons_na_none (rest : List Cell) :
    ffillGo none (Cell.na :: rest) = Cell.na :: ffillGo none rest := rfl

/-- Forward fill on a present cell. -/
theorem ffillGo_cons_ne (carry : Option Cell) (c : Cell) (rest : List Cell)
    (h : c ≠ Cell.na) : ffillGo carry (c :: rest) = c :: ffillGo (some c) rest := by
  cases c with
  | na => exact absurd rfl h
  | num q => rfl
  | text s => rfl
  | date d => rfl

/-- Forward fill is idempotent (the carried cell is never a missing cell). -/
theorem ffillGo_ffillGo (l : List Cell) :
    ∀ carry, (∀ v, carry = some v → v ≠ Cell.na) →
      ffillGo carry (ffillGo carry l) = ffillGo carry l := by
  induction l with
  | nil => intro _ _; rfl
  | cons c cs ih =>
    intro carry hc
    by_cases hna : c = Cell.na
    · subst hna
      cases carry with
      | none =>
        rw [ffillGo_cons_na_none, ffillGo_cons_na_none,
          ih none (fun v hv => by cases hv)]
      | some v =>
        have hv : v ≠ Cell.na := hc v rfl
        rw [ffillGo_cons_na_some, ffillGo_cons_ne _ _ _ hv,
          ih (some v) (fun w hw => by cases hw; exact hv)]
    · rw [ffillGo_cons_ne _ _ _ hna, ffillGo_cons_ne _ _ _ hna,
        ih (some c) (fun w hw => by cases hw; exact hna)]

/-- Frame-level forward fill is idempotent. -/
theorem ffillDs_ffillDs (ds : Dataset) : ffillDs (ffillDs ds) = ffillDs ds := by
  unfold ffillDs
  congr 1
  rw [List.map_map]
  refine List.map_congr_left ?_
  intro c _
  show (⟨c.name, c.dtype, ffillCol (ffillCol c.cells)⟩ : Column) =
    ⟨c.name, c.dtype, ffillCol c.cells⟩
  rw [ffillCol, ffillCol, ffillGo_ffillGo _ none (by intro v hv; cases hv)]

/-- Every column produced by `rebuildCols` has as many cells as there are
rows. -/
theorem length_rebuildCols_cells (rs : List (List Cell)) :
    ∀ (cs : List Column) (j : ℕ), ∀ c ∈ rebuildCols cs j rs,
      c.cells.length = rs.length := by
  intro cs
  induction cs with
  | nil => intro j c hmem; cases hmem
  | cons c0 cs2 ih =>
    intro j c hmem
    unfold rebuildCols at hmem
    rcases List.mem_cons.mp hmem with h | h
    · rw [h]
      exact List.length_map _ _
    · exact ih (j + 1) c h

/-- Every column produced by `rebuildCols` keeps the name and dtype of a
column of the input. -/
theorem mem_rebuildCols_name (rs : List (List Cell)) :
    ∀ (cs : List Column) (j : ℕ), ∀ c ∈ rebuildCols cs j rs,
      ∃ c0 ∈ cs, c.name = c0.name := by
  intro cs
  induction cs with
  | nil => intro j c hmem; cases hmem
  | cons c0 cs2 ih =>
    intro j c hmem
    unfold rebuildCols at hmem
    rcases List.mem_cons.mp hmem with h | h
    · exact ⟨c0, List.mem_cons_self _ _, by rw [h]⟩
    · obtain ⟨c1, hc1, hn⟩ := ih (j + 1) c h
      exact ⟨c1, List.mem_cons_of_mem _ hc1, hn⟩

/-- Every column name of a cleaned frame is a normalised name. -/
theorem names_load (ds : Dataset) :
    ∀ c ∈ (load_and_preprocess ds).cols, ∃ s, c.name = normName s := by
  intro c hc
  unfold load_and_preprocess ffillDs at hc
  simp only [List.mem_map] at hc
  obtain ⟨c1, hc1, rfl⟩ := hc
  obtain ⟨c0, hc0, hname⟩ := mem_rebuildCols_name _ _ _ _ hc1
  unfold cleanNames at hc0
  simp only [List.mem_map] at hc0
  obtain ⟨corig, _, rfl⟩ := hc0
  exact ⟨corig.name, hname⟩

/-- A cleaned frame is rectangular. -/
theorem rect_load (ds : Dataset) :
    ∀ c ∈ (load_and_preprocess ds).cols,
      c.cells.length = nRows (load_and_preprocess ds) := by
  have hlen : ∀ c ∈ (load_and_preprocess ds).cols,
      c.cells.length = (dedupFirst (rowsOf (cleanNames ds))).length := by
    intro c hc
    unfold load_and_preprocess ffillDs at hc
    simp only [List.mem_map] at hc
    obtain ⟨c1, hc1, rfl⟩ := hc
    show (ffillCol c1.cells).length = _
    rw [ffillCol, length_ffillGo]
    exact length_rebuildCols_cells _ _ _ _ hc1
  intro c hc
  cases hcols : (load_and_preprocess ds).cols with
  | nil =>
    rw [hcols] at hc
    cases hc
  | cons c0 cs0 =>
    have hzero : nRows (load_and_preprocess ds) = c0.cells.length := by
      unfold nRows
      rw [hcols]
    rw [hzero, hlen c hc, hlen c0 (by rw [hcols]; exact List.mem_cons_self _ _)]

/-- C9 (amended): the cleaning transform is idempotent whenever its output
has no duplicate rows.  (Forward fill runs after deduplication and can
introduce new duplicate rows, which a second run then removes — the
counterexample; when it introduces none, re-running the transform is the
identity.) -/
theorem c9_amended (ds : Dataset)
    (h : (rowsOf (load_and_preprocess ds)).Nodup) :
    load_and_preprocess (load_and_preprocess ds) = load_and_preprocess ds := by
  have hclean : cleanNames (load_and_preprocess ds) = load_and_preprocess ds := by
    unfold cleanNames
    have hmap : (load_and_preprocess ds).cols.map
        (fun c => (⟨normName c.name, c.dtype, c.cells⟩ : Column)) =
        (load_and_preprocess ds).cols.map id := by
      refine List.map_congr_left ?_
      intro c hc
      obtain ⟨s0, hs0⟩ := names_load ds c hc
      rw [hs0, normName_normName, ← hs0]
      rfl
    rw [hmap, List.map_id]
  have hdedup : dropDuplicatesDs (load_and_preprocess ds) =
      load_and_preprocess ds := by
    unfold dropDuplicatesDs
    rw [dedupFirst_eq_self _ h]
    show (⟨rebuildCols (load_and_preprocess ds).cols 0
      (rowsOf (load_and_preprocess ds))⟩ : Dataset) = _
    unfold rowsOf
    rw [rebuildCols_self (load_and_preprocess ds).cols
      (nRows (load_and_preprocess ds)) (rect_load ds) 0
      (load_and_preprocess ds).cols (List.drop_zero _).symm]
  show load_and_preprocess (load_and_preprocess ds) = load_and_preprocess ds
  unfold load_and_preprocess
  rw [show cleanNames (ffillDs (dropDuplicatesDs (cleanNames ds))) =
      ffillDs (dropDuplicatesDs (cleanNames ds)) from hclean,
    show dropDuplicatesDs (ffillDs (dropDuplicatesDs (cleanNames ds))) =
      ffillDs (dropDuplicatesDs (cleanNames ds)) from hdedup,
    ffillDs_ffillDs]

/-- C9 witness: an already-clean frame satisfies the no-duplicate-rows
condition and is a fixed point of a second cleanup run. -/
theorem c9_amended_witness :
    (rowsOf (load_and_preprocess dsClean)).Nodup ∧
      load_and_preprocess (load_and_preprocess dsClean) =
        load_and_preprocess dsClean :=
  ⟨by decide, c9_amended dsClean (by decide)⟩

/-! ## C7 — rule-based insight generation -/

/-- Strings with equal character data are equal. -/
theorem strExt {a b : String} (h : a.data = b.data) : a = b :=
  congrArg String.mk h

/-- The high-max message determines the column name. -/
theorem highMsg_inj {a b : String} (h : highMsg a = highMsg b) : a = b := by
  unfold highMsg at h
  have hd := congrArg String.data h
  rw [String.data_append, String.data_append, String.data_append,
    String.data_append] at hd
  exact strExt (List.append_cancel_left (List.append_cancel_right hd))

/-- A high-max message is never a low-min message. -/
theorem highMsg_ne_lowMsg (a b : String) : highMsg a ≠ lowMsg b := by
  intro h
  have hd := congrArg String.data h
  unfold highMsg lowMsg at hd
  rw [String.data_append, String.data_append, String.data_append,
    String.data_append,
    show ("🔼 **" : String).data = '🔼' :: (" **" : String).data from rfl,
    show ("🔽 **" : String).data = '🔽' :: (" **" : String).data from rfl] at hd
  rw [List.cons_append, List.cons_append, List.cons_append, List.cons_append]
    at hd
  injection hd with h1 _
  exact absurd h1 (by decide)

/-- The low-min message determines the column name. -/
theorem lowMsg_inj {a b : String} (h : lowMsg a = lowMsg b) : a = b := by
  unfold lowMsg at h
  have hd := congrArg String.data h
  rw [String.data_append, String.data_append, String.data_append,
    String.data_append] at hd
  exact strExt (List.append_cancel_left (List.append_cancel_right hd))

/-- A high-max message is never the fallback message. -/
theorem highMsg_ne_fallback (a : String) : highMsg a ≠ fallbackMsg := by
  intro h
  have hd := congrArg String.data h
  unfold highMsg fallbackMsg at hd
  rw [String.data_append, String.data_append,
    show ("🔼 **" : String).data = '🔼' :: (" **" : String).data from rfl] at hd
  rw [List.cons_append, List.cons_append] at hd
  have hch := congrArg List.head? hd
  simp at hch

/-- A low-min message is never the fallback message. -/
theorem lowMsg_ne_fallback (a : String) : lowMsg a ≠ fallbackMsg := by
  intro h
  have hd := congrArg String.data h
  unfold lowMsg fallbackMsg at hd
  rw [String.data_append, String.data_append,
    show ("🔽 **" : String).data = '🔽' :: (" **" : String).data from rfl] at hd
  rw [List.cons_append, List.cons_append] at hd
  have hch := congrArg List.head? hd
  simp at hch

/-- The per-column insight list, given the column statistics. -/
theorem colInsights_eq (c : Column) (m mx mn : ℚ) (hm : colMean c = some m)
    (hmx : colMax c = some mx) (hmn : colMin c = some mn) :
    colInsights c =
      (if mx > m * (3/2) then [highMsg c.name] else []) ++
        (if mn < m * (1/2) then [lowMsg c.name] else []) := by
  unfold colInsights
  rw [hm, hmx, hmn]

/-- Anything a column contributes is one of its two messages. -/
theorem mem_colInsights (c : Column) (x : String) (hx : x ∈ colInsights c) :
    x = highMsg c.name ∨ x = lowMsg c.name := by
  unfold colInsights at hx
  rcases hmv : colMean c with _ | m <;> rw [hmv] at hx
  · cases hx
  · rcases hmxv : colMax c with _ | mx <;> rw [hmxv] at hx
    · cases hx
    · rcases hmnv : colMin c with _ | mn <;> rw [hmnv] at hx
      · cases hx
      · rw [List.mem_append] at hx
        rcases hx with hx | hx
        · left
          by_cases hgt : mx > m * (3/2)
          · rw [if_pos hgt] at hx
            simpa using hx
          · rw [if_neg hgt] at hx
            cases hx
        · right
          by_cases hlt : mn < m * (1/2)
          · rw [if_pos hlt] at hx
            simpa using hx
          · rw [if_neg hlt] at hx
            cases hx

/-- C7: over the numeric columns (with distinct names, as pandas column
access presumes), the rule-based generator emits the high-max insight for a
column exactly when `max > 1.5 * mean`, the low-min insight exactly when
`min < 0.5 * mean`, collapses to the single fallback message when no column
triggers, and never returns an empty list. -/
theorem c7_rule_insights (ds : Dataset) (hnd : (numericNames ds).Nodup) :
    generate_rule_based_insights ds ≠ [] ∧
    (∀ c ∈ numericCols ds, ∀ m mx mn, colMean c = some m →
      colMax c = some mx → colMin c = some mn →
      (highMsg c.name ∈ generate_rule_based_insights ds ↔ mx > m * (3/2)) ∧
      (lowMsg c.name ∈ generate_rule_based_insights ds ↔ mn < m * (1/2))) ∧
    ((∀ c ∈ numericCols ds, colInsights c = []) →
      generate_rule_based_insights ds = [fallbackMsg]) := by
  have hgen : generate_rule_based_insights ds =
      if (numericCols ds).flatMap colInsights = [] then [fallbackMsg]
      else (numericCols ds).flatMap colInsights := rfl
  have hmemL : ∀ c ∈ numericCols ds, ∀ x,
      x ∈ (numericCols ds).flatMap colInsights →
      (x = highMsg c.name ∨ x = lowMsg c.name) → x ∈ colInsights c := by
    intro c hc x hxL hx2
    rw [List.mem_flatMap] at hxL
    obtain ⟨c2, hc2, hxc2⟩ := hxL
    rcases mem_colInsights c2 x hxc2 with h2 | h2 <;> rcases hx2 with h3 | h3
    · have hn : c.name = c2.name := highMsg_inj (h3.symm.trans h2)
      have hceq : c = c2 :=
        List.inj_on_of_nodup_map (by exact hnd) hc hc2 hn
      rw [hceq]
      exact hxc2
    · exact absurd (h2.symm.trans h3) (highMsg_ne_lowMsg _ _)
    · exact absurd (h2.symm.trans h3).symm (highMsg_ne_lowMsg _ _)
    · have hn : c.name = c2.name := lowMsg_inj (h3.symm.trans h2)
      have hceq : c = c2 :=
        List.inj_on_of_nodup_map (by exact hnd) hc hc2 hn
      rw [hceq]
      exact hxc2
  refine ⟨?_, ?_, ?_⟩
  · rw [hgen]
    by_cases hL : (numericCols ds).flatMap colInsights = []
    · rw [if_pos hL]
      simp
    · rw [if_neg hL]
      exact hL
  · intro c hc m mx mn hm hmx hmn
    constructor
    · constructor
      · intro hmem
        rw [hgen] at hmem
        by_cases hL : (numericCols ds).flatMap colInsights = []
        · rw [if_pos hL] at hmem
          exact absurd (List.mem_singleton.mp hmem) (highMsg_ne_fallback _)
        · rw [if_neg hL] at hmem
          have hxc := hmemL c hc _ hmem (Or.inl rfl)
          rw [colInsights_eq c m mx mn hm hmx hmn] at hxc
          rcases List.mem_append.mp hxc with h | h
          · by_cases hgt : mx > m * (3/2)
            · exact hgt
            · rw [if_neg hgt] at h
              cases h
          · by_cases hlt : mn < m * (1/2)
            · rw [if_pos hlt] at h
              exact absurd (List.mem_singleton.mp h) (highMsg_ne_lowMsg _ _)
            · rw [if_neg hlt] at h
              cases h
      · intro hgt
        have hxc : highMsg c.name ∈ colInsights c := by
          rw [colInsights_eq c m mx mn hm hmx hmn, if_pos hgt]
          exact List.mem_append_left _ (by simp)
        have hxL : highMsg c.name ∈ (numericCols ds).flatMap colInsights :=
          List.mem_flatMap.mpr ⟨c, hc, hxc⟩
        rw [hgen, if_neg (List.ne_nil_of_mem hxL)]
        exact hxL
    · constructor
      · intro hmem
        rw [hgen] at hmem
        by_cases hL : (numericCols ds).flatMap colInsights = []
        · rw [if_pos hL] at hmem
          exact absurd (List.mem_singleton.mp hmem) (lowMsg_ne_fallback _)
        · rw [if_neg hL] at hmem
          have hxc := hmemL c hc _ hmem (Or.inr rfl)
          rw [colInsights_eq c m mx mn hm hmx hmn] at hxc
          rcases List.mem_append.mp hxc with h | h
          · by_cases hgt : mx > m * (3/2)
            · rw [if_pos hgt] at h
              exact absurd (List.mem_singleton.mp h).symm (highMsg_ne_lowMsg _ _)
            · rw [if_neg hgt] at h
              cases h
          · by_cases hlt : mn < m * (1/2)
            · exact hlt
            · rw [if_neg hlt] at h
              cases h
      · intro hlt
        have hxc : lowMsg c.name ∈ colInsights c := by
          rw [colInsights_eq c m mx mn hm hmx hmn]
          exact List.mem_append_right _ (by rw [if_pos hlt]; simp)
        have hxL : lowMsg c.name ∈ (numericCols ds).flatMap colInsights :=
          List.mem_flatMap.mpr ⟨c, hc, hxc⟩
        rw [hgen, if_neg (List.ne_nil_of_mem hxL)]
        exact hxL
  · intro hall
    rw [hgen, if_pos]
    rw [List.flatMap_eq_nil_iff]
    exact hall

/-- C7 witness: on a single column `[1, 2]` neither rule triggers (the iff
right-hand sides are false), and the output is the fallback singleton. -/
theorem c7_rule_insights_witness :
    (numericNames dsClean).Nodup ∧
      (highMsg "a" ∈ generate_rule_based_insights dsClean ↔
        (2 : ℚ) > 3/2 * (3/2)) ∧
      generate_rule_based_insights dsClean ≠ [] := by
  have h := c7_rule_insights dsClean (by decide)
  have h2 := h.2.1 ⟨"a", Dtype.num, [Cell.num 1, Cell.num 2]⟩ (by decide)
    (3/2) 2 1
    (by simp [colMean, numsOf, Cell.toNum?]; norm_num)
    (by simp [colMax, numsOf, Cell.toNum?])
    (by simp [colMin, numsOf, Cell.toNum?])
  exact ⟨by decide, by
    have := h2.1
    simpa [mul_comm] using this, h.1⟩

/-! ## C5 — outlier detector bounds and contents -/

/-- `getD` does not depend on the default within bounds. -/
theorem getD_eq_getD {α : Type} (l : List α) (k : ℕ) (hk : k < l.length)
    (d d2 : α) : l.getD k d = l.getD k d2 := by
  rw [List.getD_eq_getElem?_getD, List.getD_eq_getElem?_getD,
    List.getElem?_eq_getElem hk]
  rfl

/-- Values of a sorted list are monotone in the index. -/
theorem sorted_getD_mono (l : List ℚ) (hs : l.Sorted (· ≤ ·)) (i j : ℕ)
    (hij : i ≤ j) (hj : j < l.length) : l.getD i 0 ≤ l.getD j 0 := by
  have hi : i < l.length := lt_of_le_of_lt hij hj
  rw [List.getD_eq_getElem?_getD, List.getElem?_eq_getElem hi,
    List.getD_eq_getElem?_getD, List.getElem?_eq_getElem hj]
  show l.get ⟨i, hi⟩ ≤ l.get ⟨j, hj⟩
  exact hs.rel_get_of_le (Fin.mk_le_mk.mpr hij)

/-- The interpolation gap used by the quantile is nonnegative on a sorted
list. -/
theorem quantile_gap_nonneg (l : List ℚ) (hs : l.Sorted (· ≤ ·)) (i : ℕ)
    (hi : i < l.length) :
    0 ≤ l.getD (i + 1) (l.getD i 0) - l.getD i 0 := by
  by_cases h2 : i + 1 < l.length
  · rw [getD_eq_getD l (i + 1) h2 _ 0]
    have := sorted_getD_mono l hs i (i + 1) (Nat.le_succ i) h2
    linarith
  · rw [List.getD_eq_getElem?_getD, List.getElem?_eq_none (Nat.le_of_not_lt h2)]
    simp

/-- The linear-interpolation quantile is monotone in the probability on a
sorted list. -/
theorem quantileQ_mono (l : List ℚ) (hs : l.Sorted (· ≤ ·)) (q q2 : ℚ)
    (hq0 : 0 ≤ q) (hqq : q ≤ q2) (hq1 : q2 ≤ 1) :
    ∀ a b, quantileQ l q = some a → quantileQ l q2 = some b → a ≤ b := by
  intro a b ha hb
  cases l with
  | nil => cases ha
  | cons x xs =>
    set L := x :: xs with hL
    set n := L.length with hn
    have hn1 : 1 ≤ n := by rw [hn, hL]; simp
    have hnq : (1 : ℚ) ≤ (n : ℚ) := by exact_mod_cast hn1
    have ha' : L.getD (Int.floor (q * ((n : ℚ) - 1))).toNat 0 +
        (q * ((n : ℚ) - 1) - ((Int.floor (q * ((n : ℚ) - 1))).toNat : ℚ)) *
          (L.getD ((Int.floor (q * ((n : ℚ) - 1))).toNat + 1)
              (L.getD (Int.floor (q * ((n : ℚ) - 1))).toNat 0) -
            L.getD (Int.floor (q * ((n : ℚ) - 1))).toNat 0) = a := by
      have := ha
      unfold quantileQ at this
      simpa using this
    have hb' : L.getD (Int.floor (q2 * ((n : ℚ) - 1))).toNat 0 +
        (q2 * ((n : ℚ) - 1) - ((Int.floor (q2 * ((n : ℚ) - 1))).toNat : ℚ)) *
          (L.getD ((Int.floor (q2 * ((n : ℚ) - 1))).toNat + 1)
              (L.getD (Int.floor (q2 * ((n : ℚ) - 1))).toNat 0) -
            L.getD (Int.floor (q2 * ((n : ℚ) - 1))).toNat 0) = b := by
      have := hb
      unfold quantileQ at this
      simpa using this
    set h1 : ℚ := q * ((n : ℚ) - 1) with hh1
    set h2 : ℚ := q2 * ((n : ℚ) - 1) with hh2
    have hh10 : 0 ≤ h1 := mul_nonneg hq0 (by linarith)
    have hh12 : h1 ≤ h2 := mul_le_mul_of_nonneg_right hqq (by linarith)
    have hh2top : h2 ≤ (n : ℚ) - 1 := by
      calc h2 = q2 * ((n : ℚ) - 1) := rfl
        _ ≤ 1 * ((n : ℚ) - 1) := mul_le_mul_of_nonneg_right hq1 (by linarith)
        _ = (n : ℚ) - 1 := one_mul _
    have hfl10 : 0 ≤ Int.floor h1 := Int.le_floor.mpr (by exact_mod_cast hh10)
    have hfl20 : 0 ≤ Int.floor h2 :=
      Int.le_floor.mpr (by push_cast; linarith)
    set i1 := (Int.floor h1).toNat with hi1
    set i2 := (Int.floor h2).toNat with hi2
    have hcast1 : ((i1 : ℕ) : ℚ) = ((Int.floor h1 : ℤ) : ℚ) := by
      rw [hi1]
      exact_mod_cast congrArg (fun z : ℤ => (z : ℚ)) (Int.toNat_of_nonneg hfl10)
    have hcast2 : ((i2 : ℕ) : ℚ) = ((Int.floor h2 : ℤ) : ℚ) := by
      rw [hi2]
      exact_mod_cast congrArg (fun z : ℤ => (z : ℚ)) (Int.toNat_of_nonneg hfl20)
    have hle1 : (i1 : ℚ) ≤ h1 := by rw [hcast1]; exact Int.floor_le h1
    have hlt1 : h1 < (i1 : ℚ) + 1 := by rw [hcast1]; exact Int.lt_floor_add_one h1
    have hle2 : (i2 : ℚ) ≤ h2 := by rw [hcast2]; exact Int.floor_le h2
    have hi12 : i1 ≤ i2 := by
      rw [hi1, hi2]
      exact Int.toNat_le_toNat (Int.floor_le_floor hh12)
    have hfl2top : Int.floor h2 ≤ (n : ℤ) - 1 := by
      have : ((n : ℤ) - 1 : ℤ) = Int.floor (((n : ℚ) - 1)) := by
        rw [show ((n : ℚ) - 1) = (((n : ℤ) - 1 : ℤ) : ℚ) by push_cast; ring]
        rw [Int.floor_intCast]
      rw [this]
      exact Int.floor_le_floor hh2top
    have hi2n : i2 < n := by
      rw [hi2]
      omega
    have hi1n : i1 < n := lt_of_le_of_lt hi12 hi2n
    have hgap1 : 0 ≤ L.getD (i1 + 1) (L.getD i1 0) - L.getD i1 0 :=
      quantile_gap_nonneg L hs i1 hi1n
    have hgap2 : 0 ≤ L.getD (i2 + 1) (L.getD i2 0) - L.getD i2 0 :=
      quantile_gap_nonneg L hs i2 hi2n
    rcases Nat.lt_or_ge i1 i2 with hlt | hge
    · have hi1succ : i1 + 1 < n := lt_of_le_of_lt hlt hi2n
      have hstep1 : a ≤ L.getD (i1 + 1) 0 := by
        rw [← ha']
        rw [getD_eq_getD L (i1 + 1) hi1succ (L.getD i1 0) 0]
        have hmul : (h1 - (i1 : ℚ)) * (L.getD (i1 + 1) 0 - L.getD i1 0) ≤
            1 * (L.getD (i1 + 1) 0 - L.getD i1 0) := by
          apply mul_le_mul_of_nonneg_right (by linarith)
          rw [← getD_eq_getD L (i1 + 1) hi1succ (L.getD i1 0) 0]
          exact hgap1
        linarith
      have hstep2 : L.getD (i1 + 1) 0 ≤ L.getD i2 0 :=
        sorted_getD_mono L hs (i1 + 1) i2 hlt hi2n
      have hstep3 : L.getD i2 0 ≤ b := by
        rw [← hb']
        have := mul_nonneg (by linarith : (0 : ℚ) ≤ h2 - (i2 : ℚ)) hgap2
        linarith
      linarith
    · have heq : i1 = i2 := le_antisymm hi12 hge
      rw [← ha', ← hb', heq]
      have := mul_le_mul_of_nonneg_right
        (sub_le_sub_right hh12 ((i2 : ℕ) : ℚ)) hgap2
      linarith

/-- A single-value numeric column used as the C5 witness input. -/
def dsQuant : Dataset := ⟨[⟨"x", Dtype.num, [Cell.num 5]⟩]⟩

/-- C5: the outlier report maps exactly the numeric columns in order; for
every numeric column whose quantiles exist, the Tukey bounds satisfy
`lower ≤ Q1 ≤ Q3 ≤ upper`, and the reported list is exactly the values of
the column, in row order with duplicates, strictly outside the bounds — a
column with nothing out of bounds still appears, mapped to the empty
list. -/
theorem c5_outliers (ds : Dataset) :
    (detect_outliers ds).map Prod.fst = numericNames ds ∧
    ∀ c ∈ numericCols ds, ∀ q1 q3, colQ1 c = some q1 → colQ3 c = some q3 →
      q1 ≤ q3 ∧
      q1 - 3/2 * (q3 - q1) ≤ q1 ∧
      q3 ≤ q3 + 3/2 * (q3 - q1) ∧
      colOutlierList c = (numsOf c).filter
        (fun x => x < q1 - 3/2 * (q3 - q1) ∨ q3 + 3/2 * (q3 - q1) < x) ∧
      (∀ x, x ∈ colOutlierList c ↔
        x ∈ numsOf c ∧ (x < q1 - 3/2 * (q3 - q1) ∨ q3 + 3/2 * (q3 - q1) < x)) ∧
      (c.name, colOutlierList c) ∈ detect_outliers ds := by
  constructor
  · unfold detect_outliers numericNames
    rw [List.map_map]
    rfl
  · intro c hc q1 q3 hq1 hq3
    have hs : (sortedNums c).Sorted (· ≤ ·) :=
      List.sorted_insertionSort (· ≤ ·) (numsOf c)
    have h13 : q1 ≤ q3 :=
      quantileQ_mono (sortedNums c) hs (1/4) (3/4) (by norm_num) (by norm_num)
        (by norm_num) q1 q3 hq1 hq3
    have heq : colOutlierList c = (numsOf c).filter
        (fun x => x < q1 - 3/2 * (q3 - q1) ∨ q3 + 3/2 * (q3 - q1) < x) := by
      unfold colOutlierList
      rw [hq1, hq3]
    refine ⟨h13, by linarith, by linarith, heq, ?_, ?_⟩
    · intro x
      rw [heq, List.mem_filter]
      simp
    · exact List.mem_map.mpr ⟨c, hc, rfl⟩

/-- C5 witness: on the single-value column both quantiles are 5, the bounds
collapse to `[5, 5]`, and the report maps the column to the empty list. -/
theorem c5_outliers_witness :
    colQ1 ⟨"x", Dtype.num, [Cell.num 5]⟩ = some 5 ∧
      colQ3 ⟨"x", Dtype.num, [Cell.num 5]⟩ = some 5 ∧
      (5 : ℚ) ≤ 5 ∧
      colOutlierList ⟨"x", Dtype.num, [Cell.num 5]⟩ =
        (numsOf ⟨"x", Dtype.num, [Cell.num 5]⟩).filter
          (fun x => x < 5 - 3/2 * (5 - 5) ∨ 5 + 3/2 * (5 - 5) < x) := by
  have hq1 : colQ1 ⟨"x", Dtype.num, [Cell.num 5]⟩ = some 5 := by
    unfold colQ1
    rw [show sortedNums ⟨"x", Dtype.num, [Cell.num 5]⟩ = [5] from rfl]
    unfold quantileQ
    norm_num
    rfl
  have hq3 : colQ3 ⟨"x", Dtype.num, [Cell.num 5]⟩ = some 5 := by
    unfold colQ3
    rw [show sortedNums ⟨"x", Dtype.num, [Cell.num 5]⟩ = [5] from rfl]
    unfold quantileQ
    norm_num
    rfl
  have h := (c5_outliers dsQuant).2 ⟨"x", Dtype.num, [Cell.num 5]⟩
    (by decide) 5 5 hq1 hq3
  exact ⟨hq1, hq3, h.1, h.2.2.2.1⟩

/-! ## C6 — the forecaster on valid input -/

/-- Sum of a mapped range as a `Finset` sum. -/
theorem sum_map_range (n : ℕ) (f : ℕ → ℚ) :
    ((List.range n).map f).sum = ∑ i ∈ Finset.range n, f i := by
  induction n with
  | zero => rfl
  | succ k ih =>
    rw [List.range_succ, List.map_append, List.sum_append,
      Finset.sum_range_succ, ih]
    simp

/-- Gauss sum over the time indices, in `ℚ`. -/
theorem sum_range_cast (n : ℕ) (hn : 1 ≤ n) :
    (∑ i ∈ Finset.range n, (i : ℚ)) = (n : ℚ) * ((n : ℚ) - 1) / 2 := by
  have h2 := Finset.sum_range_id_mul_two n
  have h3 : ((∑ i ∈ Finset.range n, i : ℕ) : ℚ) = ((n * (n - 1) : ℕ) : ℚ) / 2 := by
    rw [← h2]
    push_cast
    ring
  rw [Nat.cast_sum] at h3
  rw [h3]
  congr 1
  push_cast [Nat.cast_sub hn]
  ring

/-- The mean time index is `(n-1)/2`. -/
theorem tIdxMean_eq (n : ℕ) (hn : 1 ≤ n) : tIdxMean n = ((n : ℚ) - 1) / 2 := by
  unfold tIdxMean
  rw [sum_range_cast n hn]
  have hn0 : (n : ℚ) ≠ 0 := Nat.cast_ne_zero.mpr (by omega)
  field_simp
  ring

/-- Positions of a mapped range read back the function. -/
theorem getD_range_map (f : ℕ → ℚ) (n i : ℕ) (hi : i < n) :
    ((List.range n).map f).getD i 0 = f i := by
  rw [List.getD_eq_getElem?_getD, List.getElem?_map, List.getElem?_range hi]
  rfl

/-- The time-index variance is positive once there are two samples. -/
theorem sxxT_pos (n : ℕ) (hn : 2 ≤ n) : 0 < sxxT n := by
  unfold sxxT
  have hn1 : 1 ≤ n := by omega
  have hnq : (2 : ℚ) ≤ (n : ℚ) := by exact_mod_cast hn
  have hmem : 0 ∈ Finset.range n := Finset.mem_range.mpr (by omega)
  have hterm : (0 : ℚ) < (((0 : ℕ) : ℚ) - tIdxMean n) ^ 2 := by
    rw [tIdxMean_eq n hn1]
    have hpos : (0 : ℚ) < ((n : ℚ) - 1) / 2 := by linarith
    push_cast
    nlinarith
  refine lt_of_lt_of_le hterm ?_
  exact @Finset.single_le_sum ℕ ℚ _ (fun i => ((i : ℚ) - tIdxMean n) ^ 2)
    (Finset.range n) (fun i _ => sq_nonneg _) 0 hmem

/-- On a perfectly linear series `aq + bq * i` with at least two samples,
the OLS fit recovers slope and intercept exactly. -/
theorem olsFit_linear (aq bq : ℚ) (n : ℕ) (hn : 2 ≤ n) :
    olsSlope ((List.range n).map (fun i : ℕ => aq + bq * (i : ℚ))) = bq ∧
    olsIntercept ((List.range n).map (fun i : ℕ => aq + bq * (i : ℚ))) = aq := by
  set ys := (List.range n).map (fun i : ℕ => aq + bq * (i : ℚ)) with hys
  have hlen : ys.length = n := by rw [hys]; simp
  have hn1 : 1 ≤ n := by omega
  have hn0 : (n : ℚ) ≠ 0 := Nat.cast_ne_zero.mpr (by omega)
  have hmean : listMean ys = aq + bq * tIdxMean n := by
    unfold listMean
    rw [hys, sum_map_range]
    rw [show ((List.range n).map (fun i : ℕ => aq + bq * (i : ℚ))).length = n by simp]
    unfold tIdxMean
    rw [Finset.sum_add_distrib, Finset.sum_const, Finset.card_range,
      ← Finset.mul_sum, nsmul_eq_mul]
    field_simp
    ring
  have hsxy : sxyT ys = bq * sxxT n := by
    unfold sxyT sxxT
    rw [hlen, Finset.mul_sum]
    refine Finset.sum_congr rfl ?_
    intro i hi
    have hgd : ys.getD i 0 = aq + bq * (i : ℚ) := by
      rw [hys]
      exact getD_range_map _ n i (Finset.mem_range.mp hi)
    rw [hgd, hmean]
    ring
  have hpos := sxxT_pos n hn
  have hslope : olsSlope ys = bq := by
    unfold olsSlope
    rw [hlen, if_neg hpos.ne', hsxy]
    exact mul_div_cancel_right₀ bq hpos.ne'
  refine ⟨hslope, ?_⟩
  unfold olsIntercept
  rw [hlen, hslope, hmean]
  ring

/-- Everything in the list (and the seed) is bounded by the running
maximum. -/
theorem le_foldl_max (l : List ℤ) : ∀ a x, (x = a ∨ x ∈ l) →
    x ≤ l.foldl max a := by
  induction l with
  | nil =>
    intro a x hx
    rcases hx with rfl | hx
    · exact le_refl x
    · cases hx
  | cons y ys ih =>
    intro a x hx
    show x ≤ ys.foldl max (max a y)
    rcases hx with rfl | hx
    · exact le_trans (le_max_left x y) (ih (max x y) _ (Or.inl rfl))
    · rcases List.mem_cons.mp hx with rfl | hx
      · exact le_trans (le_max_right a x) (ih (max a x) _ (Or.inl rfl))
      · exact ih (max a y) x (Or.inr hx)

/-- The sorted target series has one value per kept row. -/
theorem fcYs_length (rows : List (ℤ × ℚ)) : (fcYs rows).length = rows.length := by
  unfold fcYs
  rw [List.length_map]
  exact (List.perm_insertionSort dateLe rows).length_eq

/-- The frame with a 3-day perfectly linear series used as the C6 witness. -/
def dsLinear : Dataset :=
  ⟨[⟨"date", Dtype.date, [Cell.date 0, Cell.date 1, Cell.date 2]⟩,
    ⟨"sales", Dtype.num, [Cell.num 1, Cell.num 3, Cell.num 5]⟩]⟩

/-- C6: on a frame with a `date` column and a target with at least one
non-missing value, the forecast succeeds with exactly `h` (date, value)
pairs; the dates are the `h` consecutive days starting the day after the
last observed date, hence strictly after every observed date; the values are
the fitted OLS line at time indices `n..n+h-1` where `n` counts the rows
kept after dropping missing targets; and on a perfectly linear series the
predictions continue the line exactly. -/
theorem c6_forecast (ds : Dataset) (target : String) (h : ℕ)
    (hd : hasCol ds "date") (ht : hasCol ds target) (hne : target ≠ "date")
    (dts : List ℤ)
    (hdts : toDatetimeCol (getCol ds "date").cells = Except.ok dts)
    (r0 : ℤ × ℚ) (rest : List (ℤ × ℚ))
    (hrows : fcRows dts (getCol ds target).cells = r0 :: rest) :
    (generate_forecast ds target h).1 = FcOutcome.ok (fcPairs (r0 :: rest) h) ∧
    (fcPairs (r0 :: rest) h).length = h ∧
    (fcPairs (r0 :: rest) h).map Prod.fst =
      (List.range h).map (fun j : ℕ => fcLast (r0 :: rest) + 1 + (j : ℤ)) ∧
    (∀ p ∈ fcPairs (r0 :: rest) h, ∀ d ∈ (r0 :: rest).map Prod.fst, d < p.1) ∧
    (fcPairs (r0 :: rest) h).map Prod.snd = (List.range h).map (fun j : ℕ =>
      olsIntercept (fcYs (r0 :: rest)) + olsSlope (fcYs (r0 :: rest)) *
        (((r0 :: rest).length : ℚ) + (j : ℚ))) ∧
    (∀ aq bq, 2 ≤ (r0 :: rest).length →
      fcYs (r0 :: rest) = (List.range (r0 :: rest).length).map
        (fun i : ℕ => aq + bq * (i : ℚ)) →
      (fcPairs (r0 :: rest) h).map Prod.snd = (List.range h).map
        (fun j : ℕ => aq + bq * (((r0 :: rest).length : ℚ) + (j : ℚ)))) := by
  have hsnd : (fcPairs (r0 :: rest) h).map Prod.snd =
      (List.range h).map (fun j : ℕ =>
        olsIntercept (fcYs (r0 :: rest)) + olsSlope (fcYs (r0 :: rest)) *
          (((r0 :: rest).length : ℚ) + (j : ℚ))) := by
    unfold fcPairs
    rw [List.map_map]
    refine List.map_congr_left ?_
    intro j _
    show olsIntercept (fcYs (r0 :: rest)) + olsSlope (fcYs (r0 :: rest)) *
        (((fcYs (r0 :: rest)).length : ℚ) + (j : ℚ)) = _
    rw [fcYs_length]
  refine ⟨?_, by simp [fcPairs], ?_, ?_, hsnd, ?_⟩
  · have hrows2 : fcRows dts
        (getCol (setCol ds "date" (dts.map Cell.date)) target).cells =
        r0 :: rest := by
      rw [getCol_setCol_ne ds target "date" _ hne]
      exact hrows
    unfold generate_forecast
    rw [if_neg (not_not_intro ⟨hd, ht⟩), hdts]
    simp only [hrows2]
  · unfold fcPairs
    rw [List.map_map]
    rfl
  · intro p hp d hd2
    obtain ⟨j, _, rfl⟩ := List.mem_map.mp hp
    have hdle : d ≤ fcLast (r0 :: rest) := by
      show d ≤ ((r0 :: rest).map Prod.fst).foldl max r0.1
      exact le_foldl_max _ r0.1 d (Or.inr hd2)
    have hj : (0 : ℤ) ≤ (j : ℤ) := Int.natCast_nonneg j
    show d < fcLast (r0 :: rest) + 1 + (j : ℤ)
    omega
  · intro aq bq hn2 hlin
    rw [hsnd]
    refine List.map_congr_left ?_
    intro j _
    have hfit := olsFit_linear aq bq (r0 :: rest).length hn2
    rw [← hlin] at hfit
    rw [hfit.1, hfit.2]

/-- C6 witness: a 3-row frame with dates 0,1,2 and a perfectly linear target
`1 + 2*i`; the 2-step forecast succeeds and continues the line at indices 3
and 4. -/
theorem c6_forecast_witness :
    hasCol dsLinear "date" ∧ hasCol dsLinear "sales" ∧
      fcRows [0, 1, 2] (getCol dsLinear "sales").cells =
        [(0, 1), (1, 3), (2, 5)] ∧
      (generate_forecast dsLinear "sales" 2).1 =
        FcOutcome.ok (fcPairs [(0, 1), (1, 3), (2, 5)] 2) ∧
      (fcPairs [(0, 1), (1, 3), (2, 5)] 2).map Prod.snd =
        (List.range 2).map
          (fun j : ℕ => 1 + 2 * ((([(0, 1), (1, 3), (2, 5)] :
            List (ℤ × ℚ)).length : ℚ) + (j : ℚ))) := by
  have h := c6_forecast dsLinear "sales" 2 (by decide) (by decide) (by decide)
    [0, 1, 2] (by rfl) (0, 1) [(1, 3), (2, 5)] (by decide)
  have hys : fcYs [(0, 1), (1, 3), (2, 5)] =
      (List.range ([(0, 1), (1, 3), (2, 5)] : List (ℤ × ℚ)).length).map
        (fun i : ℕ => 1 + 2 * (i : ℚ)) := by
    rw [show fcYs [(0, 1), (1, 3), (2, 5)] = [1, 3, 5] from rfl,
      show (List.range ([(0, 1), (1, 3), (2, 5)] : List (ℤ × ℚ)).length) =
        [0, 1, 2] from rfl]
    norm_num
  exact ⟨by decide, by decide, by decide, h.1,
    h.2.2.2.2.2 1 2 (by decide) hys⟩

/-! ## C8 — correlation matrix properties -/

/-- Swapping the two columns swaps the pairwise-complete observations. -/
theorem pairComplete_swap (xs ys : List Cell) :
    pairComplete ys xs = (pairComplete xs ys).map Prod.swap := by
  unfold pairComplete
  induction xs generalizing ys with
  | nil => cases ys <;> rfl
  | cons x xs2 ih =>
    cases ys with
    | nil => rfl
    | cons y ys2 =>
      rw [List.zip_cons_cons, List.zip_cons_cons, List.filterMap_cons,
        List.filterMap_cons]
      cases hx : x.toNum? <;> cases hy : y.toNum? <;>
        simp [hx, hy, ih ys2]

/-- First components after a swap are the old second components. -/
theorem map_fst_swap (ps : List (ℚ × ℚ)) :
    (ps.map Prod.swap).map Prod.fst = ps.map Prod.snd := by
  rw [List.map_map]
  rfl

/-- Second components after a swap are the old first components. -/
theorem map_snd_swap (ps : List (ℚ × ℚ)) :
    (ps.map Prod.swap).map Prod.snd = ps.map Prod.fst := by
  rw [List.map_map]
  rfl

/-- The x-variance of the swapped pairs is the y-variance. -/
theorem sxxP_swap (ps : List (ℚ × ℚ)) : sxxP (ps.map Prod.swap) = syyP ps := by
  unfold sxxP syyP
  rw [List.length_map, map_fst_swap]
  refine Finset.sum_congr rfl ?_
  intro k hk
  rw [getD_map_lt Prod.swap ps (0, 0) (0, 0) k (Finset.mem_range.mp hk),
    Prod.fst_swap]

/-- The y-variance of the swapped pairs is the x-variance. -/
theorem syyP_swap (ps : List (ℚ × ℚ)) : syyP (ps.map Prod.swap) = sxxP ps := by
  unfold sxxP syyP
  rw [List.length_map, map_snd_swap]
  refine Finset.sum_congr rfl ?_
  intro k hk
  rw [getD_map_lt Prod.swap ps (0, 0) (0, 0) k (Finset.mem_range.mp hk),
    Prod.snd_swap]

/-- The cross sum is symmetric under the swap. -/
theorem sxyP_swap (ps : List (ℚ × ℚ)) : sxyP (ps.map Prod.swap) = sxyP ps := by
  unfold sxyP
  rw [List.length_map, map_fst_swap, map_snd_swap]
  refine Finset.sum_congr rfl ?_
  intro k hk
  rw [getD_map_lt Prod.swap ps (0, 0) (0, 0) k (Finset.mem_range.mp hk),
    Prod.fst_swap, Prod.snd_swap]
  ring

/-- Variance sums are nonnegative. -/
theorem sxxP_nonneg (ps : List (ℚ × ℚ)) : 0 ≤ sxxP ps :=
  Finset.sum_nonneg (fun _ _ => sq_nonneg _)

/-- Variance sums are nonnegative. -/
theorem syyP_nonneg (ps : List (ℚ × ℚ)) : 0 ≤ syyP ps :=
  Finset.sum_nonneg (fun _ _ => sq_nonneg _)

/-- Cauchy–Schwarz for the centered sums. -/
theorem sxyP_sq_le (ps : List (ℚ × ℚ)) : sxyP ps ^ 2 ≤ sxxP ps * syyP ps := by
  unfold sxxP syyP sxyP
  exact Finset.sum_mul_sq_le_sq_mul_sq (Finset.range ps.length) _ _

/-- A correlation entry is symmetric in its two columns. -/
theorem corrEntry_symm (xs ys : List Cell) : corrEntry xs ys = corrEntry ys xs := by
  simp only [corrEntry]
  rw [pairComplete_swap xs ys, sxxP_swap, syyP_swap, sxyP_swap]
  by_cases hc : sxxP (pairComplete xs ys) = 0 ∨ syyP (pairComplete xs ys) = 0
  · rw [if_pos hc, if_pos (or_comm.mp hc)]
  · rw [if_neg hc, if_neg (fun h2 => hc (or_comm.mp h2)),
      mul_comm ((syyP (pairComplete xs ys) : ℚ) : ℝ)
        ((sxxP (pairComplete xs ys) : ℚ) : ℝ)]

/-- A defined correlation entry lies in `[-1, 1]`. -/
theorem corrEntry_mem (xs ys : List Cell) (c : ℝ)
    (hc : corrEntry xs ys = some c) : -1 ≤ c ∧ c ≤ 1 := by
  simp only [corrEntry] at hc
  by_cases h0 : sxxP (pairComplete xs ys) = 0 ∨ syyP (pairComplete xs ys) = 0
  · rw [if_pos h0] at hc
    cases hc
  · rw [if_neg h0] at hc
    push_neg at h0
    have hx : (0 : ℝ) < ((sxxP (pairComplete xs ys) : ℚ) : ℝ) := by
      have := sxxP_nonneg (pairComplete xs ys)
      have hne := h0.1
      have : (0 : ℚ) < sxxP (pairComplete xs ys) := lt_of_le_of_ne this (Ne.symm hne)
      exact_mod_cast this
    have hy : (0 : ℝ) < ((syyP (pairComplete xs ys) : ℚ) : ℝ) := by
      have := syyP_nonneg (pairComplete xs ys)
      have hne := h0.2
      have : (0 : ℚ) < syyP (pairComplete xs ys) := lt_of_le_of_ne this (Ne.symm hne)
      exact_mod_cast this
    have hcs : ((sxyP (pairComplete xs ys) : ℚ) : ℝ) ^ 2 ≤
        ((sxxP (pairComplete xs ys) : ℚ) : ℝ) *
          ((syyP (pairComplete xs ys) : ℚ) : ℝ) := by
      exact_mod_cast sxyP_sq_le (pairComplete xs ys)
    have hsqrtpos : (0 : ℝ) < Real.sqrt
        (((sxxP (pairComplete xs ys) : ℚ) : ℝ) *
          ((syyP (pairComplete xs ys) : ℚ) : ℝ)) :=
      Real.sqrt_pos.mpr (mul_pos hx hy)
    have habs : |((sxyP (pairComplete xs ys) : ℚ) : ℝ)| ≤ Real.sqrt
        (((sxxP (pairComplete xs ys) : ℚ) : ℝ) *
          ((syyP (pairComplete xs ys) : ℚ) : ℝ)) := by
      have h1 := Real.sqrt_le_sqrt hcs
      rw [Real.sqrt_sq_eq_abs] at h1
      exact h1
    have hval : c = ((sxyP (pairComplete xs ys) : ℚ) : ℝ) / Real.sqrt
        (((sxxP (pairComplete xs ys) : ℚ) : ℝ) *
          ((syyP (pairComplete xs ys) : ℚ) : ℝ)) := by
      cases hc
      rfl
    rw [hval]
    rw [← abs_le, abs_div, abs_of_pos hsqrtpos, div_le_one hsqrtpos]
    exact habs

/-- On the diagonal the complete observations pair each value with itself. -/
theorem pairComplete_self (xs : List Cell) :
    pairComplete xs xs = (xs.filterMap Cell.toNum?).map (fun a => (a, a)) := by
  unfold pairComplete
  induction xs with
  | nil => rfl
  | cons x xs2 ih =>
    rw [List.zip_cons_cons, List.filterMap_cons, List.filterMap_cons]
    cases hx : x.toNum? <;> simp [hx, ih]

/-- On self-paired lists the three centered sums agree. -/
theorem sums_self (l : List ℚ) :
    syyP (l.map (fun a => (a, a))) = sxxP (l.map (fun a => (a, a))) ∧
    sxyP (l.map (fun a => (a, a))) = sxxP (l.map (fun a => (a, a))) := by
  have hfst : ((l.map (fun a => (a, a))).map Prod.fst) = l := by
    rw [List.map_map]
    exact List.map_id l
  have hsnd : ((l.map (fun a => (a, a))).map Prod.snd) = l := by
    rw [List.map_map]
    exact List.map_id l
  constructor
  · unfold sxxP syyP
    rw [hfst, hsnd]
    refine Finset.sum_congr rfl ?_
    intro k hk
    rw [List.length_map] at hk
    rw [getD_map_lt (fun a : ℚ => (a, a)) l (0, 0) 0 k (Finset.mem_range.mp hk)]
  · unfold sxxP sxyP
    rw [hfst, hsnd]
    refine Finset.sum_congr rfl ?_
    intro k hk
    rw [List.length_map] at hk
    rw [getD_map_lt (fun a : ℚ => (a, a)) l (0, 0) 0 k (Finset.mem_range.mp hk)]
    ring

/-- A diagonal entry with nonzero variance is exactly 1. -/
theorem corrEntry_diag (xs : List Cell)
    (h : sxxP (pairComplete xs xs) ≠ 0) : corrEntry xs xs = some 1 := by
  simp only [corrEntry]
  have hself := sums_self (xs.filterMap Cell.toNum?)
  rw [← pairComplete_self] at hself
  have hyy : syyP (pairComplete xs xs) = sxxP (pairComplete xs xs) := hself.1
  have hxy : sxyP (pairComplete xs xs) = sxxP (pairComplete xs xs) := hself.2
  rw [if_neg (by rw [hyy]; intro hor; rcases hor with h1 | h1 <;> exact h h1)]
  rw [hyy, hxy]
  have hpos : (0 : ℝ) < ((sxxP (pairComplete xs xs) : ℚ) : ℝ) := by
    have hle := sxxP_nonneg (pairComplete xs xs)
    have : (0 : ℚ) < sxxP (pairComplete xs xs) := lt_of_le_of_ne hle (Ne.symm h)
    exact_mod_cast this
  rw [Real.sqrt_mul_self hpos.le, div_self hpos.ne']

/-- The `i`-th numeric column (a default empty column out of range). -/
def colAt (ds : Dataset) (i : ℕ) : Column :=
  (numericCols ds).getD i ⟨"", Dtype.num, []⟩

/-- A frame with a constant numeric column next to a varying one. -/
def dsConst : Dataset :=
  ⟨[⟨"x", Dtype.num, [Cell.num 1, Cell.num 1]⟩,
    ⟨"y", Dtype.num, [Cell.num 1, Cell.num 2]⟩]⟩

/-- C8 counterexample: the entry between a constant column (zero variance)
and any other column is `NaN` (modelled `none`), not a number in `[-1, 1]` —
so not every entry of the matrix lies in that interval. -/
theorem c8_counterexample : corrMatrix dsConst 0 1 = none := by
  show corrEntry [Cell.num 1, Cell.num 1] [Cell.num 1, Cell.num 2] = none
  have hz : sxxP (pairComplete [Cell.num 1, Cell.num 1]
      [Cell.num 1, Cell.num 2]) = 0 := by
    rw [show pairComplete [Cell.num 1, Cell.num 1] [Cell.num 1, Cell.num 2] =
      [(1, 1), (1, 2)] from rfl]
    unfold sxxP listMean
    norm_num [Finset.sum_range_succ, List.getD_cons_zero, List.getD_cons_succ]
  simp only [corrEntry]
  rw [if_pos (Or.inl hz)]

/-- C8 (amended): the correlation matrix over the numeric columns is
symmetric; every defined entry lies in `[-1, 1]`; and every diagonal entry of
a column with nonzero variance (over its non-missing values) equals 1.
Entries touching a zero-variance column are `NaN` (`none`). -/
theorem c8_amended (ds : Dataset) (i j : ℕ) :
    corrMatrix ds i j = corrMatrix ds j i ∧
    (∀ c : ℝ, corrMatrix ds i j = some c → -1 ≤ c ∧ c ≤ 1) ∧
    (sxxP (pairComplete (colAt ds i).cells (colAt ds i).cells) ≠ 0 →
      corrMatrix ds i i = some 1) :=
  ⟨corrEntry_symm _ _, fun c hc => corrEntry_mem _ _ c hc,
    fun h => corrEntry_diag _ h⟩

/-- C8 witness: the single non-constant column of `dsClean` has nonzero
variance, its diagonal entry is 1, and 1 lies in `[-1, 1]`. -/
theorem c8_amended_witness :
    sxxP (pairComplete (colAt dsClean 0).cells (colAt dsClean 0).cells) ≠ 0 ∧
      corrMatrix dsClean 0 0 = some 1 ∧ (-1 : ℝ) ≤ 1 ∧ (1 : ℝ) ≤ 1 := by
  have hsxx : sxxP (pairComplete (colAt dsClean 0).cells
      (colAt dsClean 0).cells) ≠ 0 := by
    rw [show pairComplete (colAt dsClean 0).cells (colAt dsClean 0).cells =
      [(1, 1), (2, 2)] from rfl]
    unfold sxxP listMean
    norm_num [Finset.sum_range_succ, List.getD_cons_zero, List.getD_cons_succ]
  have h := c8_amended dsClean 0 0
  have hdiag := h.2.2 hsxx
  have hmem := h.2.1 1 hdiag
  exact ⟨hsxx, hdiag, hmem.1, hmem.2⟩

/-! ## C10 — raw frame in the Streamlit flow, cleaned frame in the CLI -/

/-- A frame whose column name the ingestion cleanup would change. -/
def dsDirty : Dataset := ⟨[⟨" A ", Dtype.num, [Cell.num 1]⟩]⟩

/-- C10: every Streamlit analysis branch runs its component on the uploaded
frame exactly as the CSV parser returned it (no name normalisation, no
deduplication, no forward fill in between), while the CLI flow runs the same
components on `load_and_preprocess` of the frame; and the two genuinely
differ — on `dsDirty` the cleanup changes the frame and the two entry points
produce different outlier reports. -/
theorem c10_entry_points (g : String → String) (raw : Dataset) :
    streamlitRun g raw StChoice.summarySel =
      (generate_summary raw).map StResult.textR ∧
    streamlitRun g raw StChoice.correlationSel =
      Except.ok (StResult.corrR (generate_correlation raw)) ∧
    streamlitRun g raw StChoice.outliersSel =
      Except.ok (StResult.outR (detect_outliers raw)) ∧
    streamlitRun g raw StChoice.insightsRule =
      Except.ok (StResult.insR (generate_rule_based_insights raw)) ∧
    streamlitRun g raw StChoice.fullRun =
      (edaInvoke g raw).map StResult.fullR ∧
    cliRun raw CliChoice.summarySel =
      (generate_summary (load_and_preprocess raw)).map StResult.textR ∧
    cliRun raw CliChoice.outliersSel =
      Except.ok (StResult.outR (detect_outliers (load_and_preprocess raw))) ∧
    load_and_preprocess dsDirty ≠ dsDirty ∧
    detect_outliers dsDirty ≠
      detect_outliers (load_and_preprocess dsDirty) := by
  refine ⟨rfl, rfl, rfl, rfl, rfl, rfl, rfl, by decide, ?_⟩
  intro heq
  have hfst := congrArg (List.map Prod.fst) heq
  rw [show (detect_outliers dsDirty).map Prod.fst = [" A "] from rfl,
    show (detect_outliers (load_and_preprocess dsDirty)).map Prod.fst =
      ["a"] from rfl] at hfst
  exact absurd hfst (by decide)
